import Mathlib

set_option maxRecDepth 100000

/-!
Shallow embedding of the Atom Bech32 codec (`bip_utils/bech32/atom_bech32.py`)
together with the shared Bech32 base/segwit machinery it is layered on.

The visible source file is `atom_bech32.py`.  The base classes and utility
modules it imports (`bech32_base.py`, `segwit_bech32.py`, `bech32_ex.py`,
`utils`) are not part of the visible source, so they are modelled from the
specification (sections 4.1-4.3 of the spec), as indicated in the doc
comments below.

Python `str` values are embedded as `List Char`, `bytes` as `List Nat`
(values `< 256`), machine integers as `Nat` (all the arithmetic in the
original is on non-negative ints; overflow never occurs because Python ints
are unbounded).  Functions that raise exceptions are embedded as
`Except Bech32Err _` or `Option _` as appropriate.
-/

/-- ASCII lower-casing of a single character, as performed by Python's
`str.lower` on the ASCII range (the only range that matters here: the
decoder rejects non-printable-ASCII strings in the same check). -/
def asciiLowerChar (c : Char) : Char :=
  if 65 ≤ c.toNat ∧ c.toNat ≤ 90 then Char.ofNat (c.toNat + 32) else c

/-- ASCII upper-casing of a single character, as performed by Python's
`str.upper` on the ASCII range. -/
def asciiUpperChar (c : Char) : Char :=
  if 97 ≤ c.toNat ∧ c.toNat ≤ 122 then Char.ofNat (c.toNat - 32) else c

/-- Python `str.lower` on an ASCII string. -/
def pyLower (s : List Char) : List Char := s.map asciiLowerChar

/-- Python `str.upper` on an ASCII string. -/
def pyUpper (s : List Char) : List Char := s.map asciiUpperChar

/-- Modelled from the spec: the two exception kinds raised by the codec
(`Bech32FormatError` and `Bech32ChecksumError` from the missing
`bech32_ex.py`), each carrying its message. -/
inductive Bech32Err where
  | formatError (msg : String)
  | checksumError (msg : String)
deriving DecidableEq, Repr

/-- Modelled from the spec: the fixed 32-character Bech32 charset
`"qpzry9x8gf2tvdw0s3jn54khce6mua7l"` (spec section 4.3, step 4 of Encode),
a constant of the missing `bech32_base.py`. -/
def Bech32BaseConst.CHARSET : List Char :=
  ['q', 'p', 'z', 'r', 'y', '9', 'x', '8', 'g', 'f', '2', 't', 'v', 'd', 'w',
   '0', 's', '3', 'j', 'n', '5', '4', 'k', 'h', 'c', 'e', '6', 'm', 'u', 'a',
   '7', 'l']

/-- Charset indexing `CHARSET[v]` (index = symbol value).  The default is
irrelevant: every symbol handed to it is `< 32`. -/
def charsetChar (v : Nat) : Char := Bech32BaseConst.CHARSET.getD v '?'

/-- Modelled from the spec (section 4.1): the inner `while bits >= to_bits`
loop of `ConvertBits`, emitting every complete `toBits`-wide group from the
accumulator, most significant group first.  Returns the emitted groups and
the final leftover bit count.  (The `0 < toBits` guard only serves
termination; both call sites use `toBits ∈ {5, 8}`.) -/
def emitGroupsF : Nat → Nat → Nat → Nat → List Nat × Nat
  | 0, _, _, bits => ([], bits)
  | fuel + 1, toBits, acc, bits =>
    if 0 < toBits ∧ toBits ≤ bits then
      let g := (acc >>> (bits - toBits)) &&& ((1 <<< toBits) - 1)
      let p := emitGroupsF fuel toBits acc (bits - toBits)
      (g :: p.1, p.2)
    else
      ([], bits)

/-- The loop itself; `bits` bounds the number of iterations, so it serves as the
structural fuel (each iteration strictly decreases `bits` by `toBits ≥ 1`). -/
def emitGroups (toBits acc bits : Nat) : List Nat × Nat :=
  emitGroupsF bits toBits acc bits

/-- Modelled from the spec (section 4.1): the main `for value in data` loop
of `ConvertBits`: check the value range, shift the value into the
accumulator (masked to `fromBits + toBits - 1` bits), and emit all complete
groups. -/
def convertLoop (fromBits toBits : Nat) :
    List Nat → Nat → Nat → List Nat → Option (List Nat × Nat × Nat)
  | [], acc, bits, ret => some (ret, acc, bits)
  | v :: rest, acc, bits, ret =>
    if v >>> fromBits ≠ 0 then
      none
    else
      let acc1 := ((acc <<< fromBits) ||| v) &&& ((1 <<< (fromBits + toBits - 1)) - 1)
      let p := emitGroups toBits acc1 (bits + fromBits)
      convertLoop fromBits toBits rest acc1 p.2 (ret ++ p.1)

/-- Modelled from the spec (section 4.1): `Bech32BaseUtils.ConvertBits`
(missing `bech32_base.py`).  Accumulates input bits MSB-first and emits
every complete `toBits`-wide group; with `pad = true` a nonempty leftover is
left-justified and zero-padded into one final group, with `pad = false` a
leftover of `≥ fromBits` bits or with any nonzero bit is an error.
`none` models the failed conversion (reported as an error by the callers
below). -/
def Bech32BaseUtils.ConvertBits (data : List Nat) (fromBits toBits : Nat)
    (pad : Bool) : Option (List Nat) :=
  match convertLoop fromBits toBits data 0 0 [] with
  | none => none
  | some (ret, acc, bits) =>
    if pad then
      if bits ≠ 0 then
        some (ret ++ [(acc <<< (toBits - bits)) &&& ((1 <<< toBits) - 1)])
      else
        some ret
    else if fromBits ≤ bits ∨ ((acc <<< (toBits - bits)) &&& ((1 <<< toBits) - 1)) ≠ 0 then
      none
    else
      some ret

/-- Modelled from the spec (section 4.1): `Bech32BaseUtils.ConvertToBase32`
(missing `bech32_base.py`); the 8-to-5 conversion of the encoding direction,
which always uses `pad = true`. -/
def Bech32BaseUtils.ConvertToBase32 (data : List Nat) : Except Bech32Err (List Nat) :=
  match Bech32BaseUtils.ConvertBits data 8 5 true with
  | none => .error (.formatError "Invalid format (conversion to base32 failed)")
  | some r => .ok r

/-- Modelled from the spec (section 4.1): `Bech32BaseUtils.ConvertFromBase32`
(missing `bech32_base.py`); the 5-to-8 conversion of the decoding direction,
which uses `pad = false`.  A failed conversion surfaces as a format error
(spec section 4.3, Decode step 6). -/
def Bech32BaseUtils.ConvertFromBase32 (data : List Nat) : Except Bech32Err (List Nat) :=
  match Bech32BaseUtils.ConvertBits data 5 8 false with
  | none => .error (.formatError "Invalid format (conversion from base32 failed)")
  | some r => .ok r

/-- Modelled from the spec (section 4.2, step 3): the five fixed generator
constants of the segwit-style checksum profile used by this variant. -/
def SegwitBech32Const.GENERATOR : List Nat :=
  [0x3b6a57b2, 0x26508e6d, 0x1ea119fa, 0x3d4233dd, 0x2a1462b3]

/-- Modelled from the spec (section 4.2): the XOR of the generator constants
selected by the low five bits of the shifted-out accumulator top
(`chk ^= GENERATOR[i] if ((top >> i) & 1) else 0` for `i in range(5)`;
`Nat.testBit top i` is exactly `(top >>> i) &&& 1 ≠ 0`). -/
def polymodG (top : Nat) : Nat :=
  (if top.testBit 0 then 0x3b6a57b2 else 0) ^^^
    (if top.testBit 1 then 0x26508e6d else 0) ^^^
    (if top.testBit 2 then 0x1ea119fa else 0) ^^^
    (if top.testBit 3 then 0x3d4233dd else 0) ^^^
    (if top.testBit 4 then 0x2a1462b3 else 0)

/-- Modelled from the spec (section 4.2): one iteration of the polynomial
residue computation: shift the top 5 bits out of the 30-bit accumulator,
fold in the next symbol, and XOR the generator constants selected by the
shifted-out bits. -/
def polymodStep (chk v : Nat) : Nat :=
  (((chk &&& 0x1ffffff) <<< 5) ^^^ v) ^^^ polymodG (chk >>> 25)

/-- The polynomial residue loop starting from accumulator `chk`. -/
def polymodFold (chk : Nat) (values : List Nat) : Nat :=
  values.foldl polymodStep chk

/-- Modelled from the spec (section 4.2): `SegwitBech32Utils.PolyMod`
(missing `segwit_bech32.py`); the BCH-style polynomial residue of a symbol
sequence, with initial accumulator 1. -/
def SegwitBech32Utils.PolyMod (values : List Nat) : Nat :=
  polymodFold 1 values

/-- Modelled from the spec (section 4.2, step 1): `SegwitBech32Utils.HrpExpand`;
the high 3 bits of each HRP character, then a zero separator symbol, then
the low 5 bits of each HRP character. -/
def SegwitBech32Utils.HrpExpand (hrp : List Char) : List Nat :=
  hrp.map (fun c => c.toNat >>> 5) ++ [0] ++ hrp.map (fun c => c.toNat &&& 31)

/-- Modelled from the spec (section 4.2): `SegwitBech32Utils.ComputeChecksum`;
the residue of expanded HRP + data + six zero placeholders is XORed with the
variant's final constant (1 for this segwit-style flavor) and split into six
5-bit symbols, most significant first. -/
def SegwitBech32Utils.ComputeChecksum (hrp : List Char) (data : List Nat) : List Nat :=
  let values := SegwitBech32Utils.HrpExpand hrp ++ data
  let polymod := SegwitBech32Utils.PolyMod (values ++ [0, 0, 0, 0, 0, 0]) ^^^ 1
  (List.range 6).map (fun i => (polymod >>> (5 * (5 - i))) &&& 31)

/-- Modelled from the spec (section 4.2): `SegwitBech32Utils.VerifyChecksum`;
valid iff the residue over expanded HRP + data (checksum included) equals
the variant's expected constant 1. -/
def SegwitBech32Utils.VerifyChecksum (hrp : List Char) (data : List Nat) : Bool :=
  SegwitBech32Utils.PolyMod (SegwitBech32Utils.HrpExpand hrp ++ data) == 1

/-- Modelled from the spec (section 4.3, Encode step 5): the separator
character of the segwit variant, `"1"` (missing `segwit_bech32.py`). -/
def SegwitBech32Const.SEPARATOR : Char := '1'

/-- Modelled from the spec (section 3): the fixed checksum length 6 of the
segwit variant (missing `segwit_bech32.py`). -/
def SegwitBech32Const.CHECKSUM_LEN : Nat := 6

/-- Separator (same as Segwit) — `AtomBech32Const.SEPARATOR` in the source. -/
def AtomBech32Const.SEPARATOR : Char := SegwitBech32Const.SEPARATOR

/-- Checksum length (same as Segwit) — `AtomBech32Const.CHECKSUM_LEN`. -/
def AtomBech32Const.CHECKSUM_LEN : Nat := SegwitBech32Const.CHECKSUM_LEN

/-- Minimum data length — `AtomBech32Const.DATA_MIN_LEN`. -/
def AtomBech32Const.DATA_MIN_LEN : Nat := 2

/-- Maximum data length — `AtomBech32Const.DATA_MAX_LEN`. -/
def AtomBech32Const.DATA_MAX_LEN : Nat := 40

/-- Modelled from the spec (section 4.3, Encode steps 1, 4, 5):
`Bech32EncoderBase._EncodeBech32` (missing `bech32_base.py`).  Rejects an
invalid HRP (non-empty, ASCII, case-consistent), appends the checksum
computed by the variant's hook, maps each 5-bit symbol to its charset
character and returns `hrp + separator + mappedCharacters`.  The checksum
hook is a parameter, modelling the `cls._ComputeChecksum` classmethod
dispatch.  The spec gives no numeric value for any maximum HRP length, so
none is modelled. -/
def Bech32EncoderBase.EncodeBech32 (hrp : List Char) (data : List Nat) (sep : Char)
    (computeChecksum : List Char → List Nat → List Nat) : Except Bech32Err (List Char) :=
  if hrp = [] ∨ (∃ c ∈ hrp, 127 < c.toNat) ∨ (pyLower hrp ≠ hrp ∧ pyUpper hrp ≠ hrp) then
    .error (.formatError "Invalid format (HRP not valid)")
  else
    .ok (hrp ++ sep :: (data ++ computeChecksum hrp data).map charsetChar)

/-- Last occurrence of a character, modelling Python's `str.rfind` (used to
locate the last separator, spec section 4.3, Decode step 2). -/
def rfindIdx : List Char → Char → Option Nat
  | [], _ => none
  | a :: rest, c =>
    match rfindIdx rest c with
    | some i => some (i + 1)
    | none => if a = c then some 0 else none

/-- Modelled from the spec (section 4.3, Decode steps 1-4):
`Bech32DecoderBase._DecodeBech32` (missing `bech32_base.py`).  Rejects
strings with characters outside the printable range 33..126 or mixing upper
and lower case; lower-cases the string ("mixed case is rejected or
normalized", spec section 3); splits on the last separator, rejecting a
missing separator, an empty HRP, or a data portion shorter than the
checksum length; maps data characters back to 5-bit symbols by charset
reverse lookup, rejecting unknown characters; verifies the checksum with
the variant's hook; and returns the HRP with the data symbols, stripping
the trailing checksum symbols.  The verification hook is a parameter,
modelling the `cls._VerifyChecksum` classmethod dispatch.  The spec
mentions "an overall maximum string length" without specifying its value,
so no such bound is modelled. -/
def Bech32DecoderBase.DecodeBech32 (bechStr : List Char) (sep : Char) (checksumLen : Nat)
    (verify : List Char → List Nat → Bool) : Except Bech32Err (List Char × List Nat) :=
  if (∃ c ∈ bechStr, c.toNat < 33 ∨ 126 < c.toNat) ∨
      (pyLower bechStr ≠ bechStr ∧ pyUpper bechStr ≠ bechStr) then
    .error (.formatError "Invalid format (string not valid)")
  else
    let s := pyLower bechStr
    match rfindIdx s sep with
    | none => .error (.formatError "Invalid format (separator not found)")
    | some sepPos =>
      let hrp := s.take sepPos
      let dataPart := s.drop (sepPos + 1)
      if hrp = [] ∨ dataPart.length < checksumLen then
        .error (.formatError "Invalid format (HRP or data length not valid)")
      else if ¬ (∀ c ∈ dataPart, c ∈ Bech32BaseConst.CHARSET) then
        .error (.formatError "Invalid format (data part not valid)")
      else
        let intData := dataPart.map (fun c => List.indexOf c Bech32BaseConst.CHARSET)
        if verify hrp intData then
          .ok (hrp, intData.take (intData.length - checksumLen))
        else
          .error (.checksumError "Invalid checksum")

/-- `AtomBech32Encoder._ComputeChecksum` — same as Segwit
(`atom_bech32.py`, lines 64-78). -/
def AtomBech32Encoder.ComputeChecksum (hrp : List Char) (data : List Nat) : List Nat :=
  SegwitBech32Utils.ComputeChecksum hrp data

/-- `AtomBech32Encoder.Encode` (`atom_bech32.py`, lines 46-62): convert the
payload to base32 and encode with the Atom separator. -/
def AtomBech32Encoder.Encode (hrp : List Char) (data : List Nat) : Except Bech32Err (List Char) :=
  match Bech32BaseUtils.ConvertToBase32 data with
  | .error e => .error e
  | .ok d =>
    Bech32EncoderBase.EncodeBech32 hrp d AtomBech32Const.SEPARATOR
      AtomBech32Encoder.ComputeChecksum

/-- `AtomBech32Decoder._VerifyChecksum` — same as Segwit
(`atom_bech32.py`, lines 117-131). -/
def AtomBech32Decoder.VerifyChecksum (hrp : List Char) (data : List Nat) : Bool :=
  SegwitBech32Utils.VerifyChecksum hrp data

/-- `AtomBech32Decoder.Decode` (`atom_bech32.py`, lines 84-115): decode the
string, check the HRP against the expected one, convert back from base32,
check the converted length against the variant bounds and return the bytes
(`ConvUtils.ListToBytes`, missing `utils`, is modelled as the identity on
the list of byte values). -/
def AtomBech32Decoder.Decode (hrp addr : List Char) : Except Bech32Err (List Nat) :=
  match Bech32DecoderBase.DecodeBech32 addr AtomBech32Const.SEPARATOR
      AtomBech32Const.CHECKSUM_LEN AtomBech32Decoder.VerifyChecksum with
  | .error e => .error e
  | .ok (hrpgot, data) =>
    if hrpgot ≠ hrp then
      .error (.formatError ("Invalid format (HRP not valid, expected " ++ String.mk hrp ++
        ", got " ++ String.mk hrpgot ++ ")"))
    else
      match Bech32BaseUtils.ConvertFromBase32 data with
      | .error e => .error e
      | .ok convData =>
        if convData.length < AtomBech32Const.DATA_MIN_LEN ∨
            AtomBech32Const.DATA_MAX_LEN < convData.length then
          .error (.formatError "Invalid format (length not valid)")
        else
          .ok convData

/-- A valid lower-case ASCII HRP: non-empty, printable ASCII (33..126),
containing no upper-case letter (spec section 3, HRP invariant). -/
def ValidHrp (hrp : List Char) : Prop :=
  hrp ≠ [] ∧ ∀ c ∈ hrp, 33 ≤ c.toNat ∧ c.toNat ≤ 126 ∧ asciiLowerChar c = c

instance (hrp : List Char) : Decidable (ValidHrp hrp) := by
  unfold ValidHrp; infer_instance

/-- The number denoted by a list of `w`-bit groups, most significant first
(specification-side view of the bit stream, used to state what
`ConvertBits` computes). -/
def toNum (w : Nat) (xs : List Nat) : Nat :=
  xs.foldl (fun n x => n * 2 ^ w + x) 0

/-! ### Bit-level helper lemmas -/

theorem and_mask_eq_mod (x n : Nat) : x &&& ((1 <<< n) - 1) = x % 2 ^ n := by
  rw [Nat.shiftLeft_eq, one_mul, Nat.and_pow_two_sub_one_eq_mod]

theorem xor_shiftLeft_distrib (a b k : Nat) : (a ^^^ b) <<< k = (a <<< k) ^^^ (b <<< k) := by
  apply Nat.eq_of_testBit_eq
  intro i
  simp only [Nat.testBit_shiftLeft, Nat.testBit_xor]
  by_cases h : k ≤ i <;> simp [h]

theorem xor_shiftRight_distrib (a b k : Nat) : (a ^^^ b) >>> k = (a >>> k) ^^^ (b >>> k) := by
  apply Nat.eq_of_testBit_eq
  intro i
  simp [Nat.testBit_shiftRight, Nat.testBit_xor]

theorem mulPow_add_testBit {v f : Nat} (hv : v < 2 ^ f) (a i : Nat) :
    (a * 2 ^ f + v).testBit i = if i < f then v.testBit i else a.testBit (i - f) := by
  rcases Nat.lt_or_ge i f with h | h
  · rw [if_pos h, Nat.testBit_to_div_mod, Nat.testBit_to_div_mod]
    have h2 : a * 2 ^ f = (a * 2 ^ (f - i - 1) * 2) * 2 ^ i := by
      rw [Nat.mul_assoc, Nat.mul_assoc, ← Nat.pow_succ', ← Nat.pow_add]
      congr 2
      omega
    have h3 : (a * 2 ^ f + v) / 2 ^ i = v / 2 ^ i + a * 2 ^ (f - i - 1) * 2 := by
      rw [h2, Nat.add_comm, Nat.add_mul_div_right _ _ (Nat.two_pow_pos i)]
    rw [h3, Nat.add_mul_mod_self_right]
  · rw [if_neg (by omega), Nat.testBit_to_div_mod, Nat.testBit_to_div_mod]
    have h2 : (2 : Nat) ^ i = 2 ^ f * 2 ^ (i - f) := by
      rw [← Nat.pow_add]
      congr 1
      omega
    have h3 : (a * 2 ^ f + v) / 2 ^ i = a / 2 ^ (i - f) := by
      rw [h2, ← Nat.div_div_eq_div_mul, Nat.add_comm,
        Nat.add_mul_div_right _ _ (Nat.two_pow_pos f), Nat.div_eq_of_lt hv, Nat.zero_add]
    rw [h3]

theorem shiftLeft_lor_eq (a : Nat) {v f : Nat} (hv : v < 2 ^ f) :
    (a <<< f) ||| v = a * 2 ^ f + v := by
  apply Nat.eq_of_testBit_eq
  intro i
  rw [mulPow_add_testBit hv]
  simp only [Nat.testBit_or, Nat.testBit_shiftLeft]
  by_cases h : i < f
  · simp [h, show ¬ i ≥ f by omega]
  · have hvi : v.testBit i = false :=
      Nat.testBit_lt_two_pow (Nat.lt_of_lt_of_le hv (Nat.pow_le_pow_right (by norm_num) (by omega)))
    simp [h, show i ≥ f by omega, hvi]

theorem shiftRight_recompose (x j : Nat) :
    ((x >>> (j + 5)) <<< 5) ^^^ ((x >>> j) &&& 31) = x >>> j := by
  apply Nat.eq_of_testBit_eq
  intro i
  have h31 : (31 : Nat) = 2 ^ 5 - 1 := by norm_num
  simp only [Nat.testBit_xor, Nat.testBit_shiftLeft, Nat.testBit_shiftRight, Nat.testBit_and,
    h31, Nat.testBit_two_pow_sub_one]
  by_cases h : i < 5
  · simp [h, show ¬ i ≥ 5 by omega]
  · have he : j + 5 + (i - 5) = j + i := by omega
    simp [h, show i ≥ 5 by omega, he]

/-! ### toNum lemmas -/

theorem toNum_nil (w : Nat) : toNum w [] = 0 := rfl

theorem toNum_foldl_init (w : Nat) (xs : List Nat) (a : Nat) :
    xs.foldl (fun n x => n * 2 ^ w + x) a = a * 2 ^ (w * xs.length) + toNum w xs := by
  induction xs generalizing a with
  | nil => simp [toNum]
  | cons x xs ih =>
    have hx : toNum w (x :: xs) = x * 2 ^ (w * xs.length) + toNum w xs := by
      show List.foldl _ ((0 : Nat) * 2 ^ w + x) xs = _
      rw [Nat.zero_mul, Nat.zero_add, ih x]
    simp only [List.foldl_cons, List.length_cons, hx]
    rw [ih (a * 2 ^ w + x)]
    ring

theorem toNum_cons (w x : Nat) (xs : List Nat) :
    toNum w (x :: xs) = x * 2 ^ (w * xs.length) + toNum w xs := by
  show List.foldl _ ((0 : Nat) * 2 ^ w + x) xs = _
  rw [Nat.zero_mul, Nat.zero_add, toNum_foldl_init]

theorem toNum_singleton (w x : Nat) : toNum w [x] = x := by
  rw [toNum_cons]
  simp [toNum]

theorem toNum_append (w : Nat) (xs ys : List Nat) :
    toNum w (xs ++ ys) = toNum w xs * 2 ^ (w * ys.length) + toNum w ys := by
  show List.foldl _ 0 (xs ++ ys) = _
  rw [List.foldl_append, toNum_foldl_init]
  rfl

theorem toNum_lt (w : Nat) (xs : List Nat) (h : ∀ x ∈ xs, x < 2 ^ w) :
    toNum w xs < 2 ^ (w * xs.length) := by
  induction xs with
  | nil => simp [toNum]
  | cons x xs ih =>
    rw [toNum_cons]
    have hx : x < 2 ^ w := h x (List.mem_cons_self _ _)
    have ht : toNum w xs < 2 ^ (w * xs.length) := ih (fun y hy => h y (List.mem_cons_of_mem _ hy))
    have h1 : x * 2 ^ (w * xs.length) ≤ (2 ^ w - 1) * 2 ^ (w * xs.length) :=
      Nat.mul_le_mul_right _ (by omega)
    have h2 : (2 ^ w - 1) * 2 ^ (w * xs.length) + 2 ^ (w * xs.length) = 2 ^ (w * (xs.length + 1)) := by
      have hp : (0 : Nat) < 2 ^ w := Nat.two_pow_pos w
      have : (2 ^ w - 1) * 2 ^ (w * xs.length) + 2 ^ (w * xs.length)
          = 2 ^ w * 2 ^ (w * xs.length) := by
        cases Nat.exists_eq_add_of_le hp with
        | intro k hk =>
          have h1k : 1 + k - 1 = k := by omega
          rw [hk, h1k]
          ring
      rw [this, ← Nat.pow_add]
      congr 1
      ring
    simp only [List.length_cons]
    omega

theorem divmod_unique {K x y T1 T2 : Nat} (h1 : T1 < K) (h2 : T2 < K)
    (h : x * K + T1 = y * K + T2) : x = y ∧ T1 = T2 := by
  have hK : 0 < K := by omega
  have hx : (x * K + T1) / K = x := by
    rw [Nat.add_comm, Nat.add_mul_div_right _ _ hK, Nat.div_eq_of_lt h1, Nat.zero_add]
  have hy : (y * K + T2) / K = y := by
    rw [Nat.add_comm, Nat.add_mul_div_right _ _ hK, Nat.div_eq_of_lt h2, Nat.zero_add]
  have hxy : x = y := by rw [← hx, ← hy, h]
  refine ⟨hxy, ?_⟩
  rw [hxy] at h
  omega

theorem toNum_inj (w : Nat) : ∀ xs ys : List Nat, xs.length = ys.length →
    (∀ x ∈ xs, x < 2 ^ w) → (∀ y ∈ ys, y < 2 ^ w) → toNum w xs = toNum w ys → xs = ys := by
  intro xs
  induction xs with
  | nil =>
    intro ys hlen _ _ _
    exact (List.length_eq_zero.mp hlen.symm).symm
  | cons x xs ih =>
    intro ys hlen hxb hyb heq
    cases ys with
    | nil => simp at hlen
    | cons y ys =>
      simp only [List.length_cons] at hlen
      have hlen' : xs.length = ys.length := by omega
      rw [toNum_cons, toNum_cons, hlen'] at heq
      have hT1 : toNum w xs < 2 ^ (w * ys.length) := by
        rw [← hlen']
        exact toNum_lt w xs (fun a ha => hxb a (List.mem_cons_of_mem _ ha))
      have hT2 : toNum w ys < 2 ^ (w * ys.length) :=
        toNum_lt w ys (fun a ha => hyb a (List.mem_cons_of_mem _ ha))
      obtain ⟨hxy, hT⟩ := divmod_unique hT1 hT2 heq
      rw [hxy, ih ys hlen' (fun a ha => hxb a (List.mem_cons_of_mem _ ha))
        (fun a ha => hyb a (List.mem_cons_of_mem _ ha)) hT]

/-! ### emitGroups characterization -/

theorem emitGroupsF_fuel : ∀ fuel fuel2 t acc bits : Nat, bits ≤ fuel → bits ≤ fuel2 →
    emitGroupsF fuel t acc bits = emitGroupsF fuel2 t acc bits := by
  intro fuel
  induction fuel with
  | zero =>
    intro fuel2 t acc bits hb _
    have hb0 : bits = 0 := by omega
    cases fuel2 with
    | zero => rfl
    | succ f2 =>
      rw [hb0]
      show ([], 0) = if 0 < t ∧ t ≤ 0 then _ else ([], 0)
      rw [if_neg (by omega)]
  | succ f ih =>
    intro fuel2 t acc bits hb hb2
    cases fuel2 with
    | zero =>
      have hb0 : bits = 0 := by omega
      rw [hb0]
      show (if 0 < t ∧ t ≤ 0 then _ else ([], 0)) = ([], 0)
      rw [if_neg (by omega)]
    | succ f2 =>
      show (if 0 < t ∧ t ≤ bits then _ else ([], bits))
          = (if 0 < t ∧ t ≤ bits then _ else ([], bits))
      by_cases hc : 0 < t ∧ t ≤ bits
      · rw [if_pos hc, if_pos hc]
        have hrec := ih f2 t acc (bits - t) (by omega) (by omega)
        simp only [hrec]
      · rw [if_neg hc, if_neg hc]

theorem emitGroups_step (t acc bits : Nat) (h : 0 < t) (h2 : t ≤ bits) :
    emitGroups t acc bits =
      (((acc >>> (bits - t)) &&& ((1 <<< t) - 1)) :: (emitGroups t acc (bits - t)).1,
       (emitGroups t acc (bits - t)).2) := by
  unfold emitGroups
  have hb1 : 1 ≤ bits := by omega
  obtain ⟨b, rfl⟩ : ∃ b, bits = b + 1 := ⟨bits - 1, by omega⟩
  show (if 0 < t ∧ t ≤ b + 1 then _ else ([], b + 1)) = _
  rw [if_pos ⟨h, h2⟩]
  have hf := emitGroupsF_fuel b (b + 1 - t) t acc (b + 1 - t) (by omega) (by omega)
  simp only [hf]

theorem emitGroups_base (t acc bits : Nat) (h : bits < t) :
    emitGroups t acc bits = ([], bits) := by
  unfold emitGroups
  cases bits with
  | zero => rfl
  | succ b =>
    show (if 0 < t ∧ t ≤ b + 1 then _ else ([], b + 1)) = ([], b + 1)
    rw [if_neg (by omega)]

theorem emitGroups_spec (t : Nat) (ht : 0 < t) (acc : Nat) : ∀ bits : Nat,
    (emitGroups t acc bits).2 = bits % t ∧
    (emitGroups t acc bits).1.length = bits / t ∧
    (∀ g ∈ (emitGroups t acc bits).1, g < 2 ^ t) ∧
    toNum t (emitGroups t acc bits).1 = acc % 2 ^ bits / 2 ^ (bits % t) := by
  intro bits
  induction bits using Nat.strong_induction_on with
  | _ bits ih =>
    by_cases h : t ≤ bits
    · obtain ⟨ih2, ihlen, ihmem, ihval⟩ := ih (bits - t) (by omega)
      rw [emitGroups_step t acc bits ht h]
      have hbits : bits = (bits - t) + t := by omega
      have hr : bits % t = (bits - t) % t := by
        conv_lhs => rw [hbits]
        rw [Nat.add_mod_right]
      have hdiv : bits / t = (bits - t) / t + 1 := by
        conv_lhs => rw [hbits]
        rw [Nat.add_div_right _ ht]
      have hg : (acc >>> (bits - t)) &&& ((1 <<< t) - 1) = acc / 2 ^ (bits - t) % 2 ^ t := by
        rw [and_mask_eq_mod, Nat.shiftRight_eq_div_pow]
      refine ⟨by simpa using ih2.trans hr.symm, ?_, ?_, ?_⟩
      · simp only [List.length_cons, ihlen]
        omega
      · intro g hg2
        rcases List.mem_cons.mp hg2 with h1 | h1
        · rw [h1, hg]
          exact Nat.mod_lt _ (Nat.two_pow_pos t)
        · exact ihmem g h1
      · rw [toNum_cons, ihlen, ihval, hg, ← hr]
        have hsplit : acc % 2 ^ bits
            = acc % 2 ^ (bits - t) + 2 ^ (bits - t) * (acc / 2 ^ (bits - t) % 2 ^ t) := by
          conv_lhs => rw [hbits, Nat.pow_add]
          exact Nat.mod_mul
        have hrle : bits % t ≤ bits - t := by
          have := Nat.mod_le (bits - t) t
          omega
        have hqr : t * ((bits - t) / t) + (bits - t) % t = bits - t := Nat.div_add_mod _ t
        have htq : t * ((bits - t) / t) = bits - t - bits % t := by omega
        have hpow : (2 : Nat) ^ (bits - t) = 2 ^ (bits - t - bits % t) * 2 ^ (bits % t) := by
          rw [← Nat.pow_add]
          congr 1
          omega
        rw [hsplit, htq]
        rw [hpow]
        have hre : acc % (2 ^ (bits - t - bits % t) * 2 ^ (bits % t))
            + 2 ^ (bits - t - bits % t) * 2 ^ (bits % t) * (acc / 2 ^ (bits - t) % 2 ^ t)
            = acc % (2 ^ (bits - t - bits % t) * 2 ^ (bits % t))
            + (2 ^ (bits - t - bits % t) * (acc / 2 ^ (bits - t) % 2 ^ t)) * 2 ^ (bits % t) := by
          ring
        rw [← hpow] at hre ⊢
        rw [hre, Nat.add_mul_div_right _ _ (Nat.two_pow_pos (bits % t))]
        rw [hpow]
        ring
    · rw [emitGroups_base t acc bits (by omega)]
      have h1 : bits % t = bits := Nat.mod_eq_of_lt (by omega)
      have h2 : bits / t = 0 := Nat.div_eq_of_lt (by omega)
      refine ⟨by simpa using h1.symm, by simpa using h2.symm, by simp, ?_⟩
      rw [toNum_nil, h1]
      exact (Nat.div_eq_of_lt (Nat.mod_lt _ (Nat.two_pow_pos bits))).symm

/-! ### convertLoop characterization -/

theorem convertLoop_spec (f t : Nat) (hf : 0 < f) (ht : 0 < t) :
    ∀ data : List Nat, (∀ v ∈ data, v < 2 ^ f) →
    ∀ acc bits ret, bits < t →
    ∃ gs acc1,
      convertLoop f t data acc bits ret = some (ret ++ gs, acc1, (bits + f * data.length) % t) ∧
      (∀ g ∈ gs, g < 2 ^ t) ∧
      gs.length = (bits + f * data.length) / t ∧
      toNum t gs * 2 ^ ((bits + f * data.length) % t) + acc1 % 2 ^ ((bits + f * data.length) % t)
        = acc % 2 ^ bits * 2 ^ (f * data.length) + toNum f data := by
  intro data
  induction data with
  | nil =>
    intro _ acc bits ret hb
    refine ⟨[], acc, ?_, by simp, ?_, ?_⟩
    · simp [convertLoop, Nat.mod_eq_of_lt hb]
    · simp [Nat.div_eq_of_lt hb]
    · simp [toNum_nil, Nat.mod_eq_of_lt hb]
  | cons v rest ih =>
    intro hmem acc bits ret hb
    have hv : v < 2 ^ f := hmem v (List.mem_cons_self _ _)
    have hvs : v >>> f = 0 := by
      rw [Nat.shiftRight_eq_div_pow]
      exact Nat.div_eq_of_lt hv
    have hstep : convertLoop f t (v :: rest) acc bits ret
        = convertLoop f t rest (((acc <<< f) ||| v) &&& ((1 <<< (f + t - 1)) - 1))
            (emitGroups t (((acc <<< f) ||| v) &&& ((1 <<< (f + t - 1)) - 1)) (bits + f)).2
            (ret ++ (emitGroups t (((acc <<< f) ||| v) &&& ((1 <<< (f + t - 1)) - 1)) (bits + f)).1) := by
      simp [convertLoop, hvs]
    set acc1 := ((acc <<< f) ||| v) &&& ((1 <<< (f + t - 1)) - 1) with hacc1
    obtain ⟨eg2, eglen, egmem, egval⟩ := emitGroups_spec t ht acc1 (bits + f)
    have hacc1mod : acc1 % 2 ^ (bits + f) = acc % 2 ^ bits * 2 ^ f + v := by
      rw [hacc1, and_mask_eq_mod, shiftLeft_lor_eq acc hv]
      have hd : (2 : Nat) ^ (bits + f) ∣ 2 ^ (f + t - 1) := pow_dvd_pow 2 (by omega)
      rw [Nat.mod_mod_of_dvd _ hd]
      have hsplit := Nat.div_add_mod acc (2 ^ bits)
      have h1 : acc * 2 ^ f + v
          = 2 ^ (bits + f) * (acc / 2 ^ bits) + (acc % 2 ^ bits * 2 ^ f + v) := by
        calc acc * 2 ^ f + v
            = (2 ^ bits * (acc / 2 ^ bits) + acc % 2 ^ bits) * 2 ^ f + v := by rw [hsplit]
          _ = 2 ^ (bits + f) * (acc / 2 ^ bits) + (acc % 2 ^ bits * 2 ^ f + v) := by
              rw [pow_add]
              ring
      rw [h1, Nat.mul_add_mod]
      have b1 := Nat.mod_lt acc (Nat.two_pow_pos bits)
      have b2 : (acc % 2 ^ bits + 1) * 2 ^ f ≤ 2 ^ bits * 2 ^ f :=
        Nat.mul_le_mul_right _ (by omega)
      have b3 : (2 : Nat) ^ (bits + f) = 2 ^ bits * 2 ^ f := pow_add 2 bits f
      refine Nat.mod_eq_of_lt ?_
      calc acc % 2 ^ bits * 2 ^ f + v < acc % 2 ^ bits * 2 ^ f + 2 ^ f := by omega
        _ = (acc % 2 ^ bits + 1) * 2 ^ f := by ring
        _ ≤ 2 ^ bits * 2 ^ f := b2
        _ = 2 ^ (bits + f) := b3.symm
    have hb2 : (bits + f) % t < t := Nat.mod_lt _ ht
    obtain ⟨gs2, accF, hrun, hmem2, hlen2, hval2⟩ :=
      ih (fun x hx => hmem x (List.mem_cons_of_mem _ hx)) acc1 ((bits + f) % t)
        (ret ++ (emitGroups t acc1 (bits + f)).1) hb2
    rw [eg2] at hstep
    have hX : toNum t (emitGroups t acc1 (bits + f)).1 * 2 ^ ((bits + f) % t)
        + acc1 % 2 ^ ((bits + f) % t) = acc % 2 ^ bits * 2 ^ f + v := by
      rw [egval]
      have hdvd : (2 : Nat) ^ ((bits + f) % t) ∣ 2 ^ (bits + f) :=
        pow_dvd_pow 2 ((Nat.mod_le _ _).trans (by omega))
      have hmm2 : acc1 % 2 ^ ((bits + f) % t) = acc1 % 2 ^ (bits + f) % 2 ^ ((bits + f) % t) :=
        (Nat.mod_mod_of_dvd _ hdvd).symm
      rw [hmm2, Nat.div_add_mod', hacc1mod]
    have hmodeq : ((bits + f) % t + f * rest.length) % t = (bits + f * (rest.length + 1)) % t := by
      rw [Nat.mod_add_mod]
      congr 1
      ring
    have hlentot : (emitGroups t acc1 (bits + f)).1.length + gs2.length
        = (bits + f * (rest.length + 1)) / t := by
      rw [eglen, hlen2]
      have hdm := Nat.div_add_mod (bits + f) t
      have heq : bits + f * (rest.length + 1)
          = t * ((bits + f) / t) + ((bits + f) % t + f * rest.length) := by
        have hms : f * (rest.length + 1) = f * rest.length + f := by ring
        rw [hms]
        omega
      rw [heq, Nat.mul_add_div ht]
    refine ⟨(emitGroups t acc1 (bits + f)).1 ++ gs2, accF, ?_, ?_, ?_, ?_⟩
    · simp only [List.length_cons]
      rw [hstep, hrun, hmodeq, List.append_assoc]
    · intro g hg
      rcases List.mem_append.mp hg with h1 | h1
      · exact egmem g h1
      · exact hmem2 g h1
    · simp only [List.length_cons, List.length_append]
      rw [hlentot]
    · simp only [List.length_cons]
      rw [toNum_append, ← hmodeq]
      have hBd := Nat.div_add_mod ((bits + f) % t + f * rest.length) t
      have hB2 : t * gs2.length + ((bits + f) % t + f * rest.length) % t
          = (bits + f) % t + f * rest.length := by
        rw [hlen2]
        omega
      calc (toNum t (emitGroups t acc1 (bits + f)).1 * 2 ^ (t * gs2.length) + toNum t gs2)
            * 2 ^ (((bits + f) % t + f * rest.length) % t) + accF
            % 2 ^ (((bits + f) % t + f * rest.length) % t)
          = toNum t (emitGroups t acc1 (bits + f)).1
              * 2 ^ (t * gs2.length + ((bits + f) % t + f * rest.length) % t)
            + (toNum t gs2 * 2 ^ (((bits + f) % t + f * rest.length) % t)
              + accF % 2 ^ (((bits + f) % t + f * rest.length) % t)) := by
            rw [pow_add]
            ring
        _ = toNum t (emitGroups t acc1 (bits + f)).1 * 2 ^ ((bits + f) % t + f * rest.length)
            + (acc1 % 2 ^ ((bits + f) % t) * 2 ^ (f * rest.length) + toNum f rest) := by
            rw [hB2, hval2]
        _ = (toNum t (emitGroups t acc1 (bits + f)).1 * 2 ^ ((bits + f) % t)
              + acc1 % 2 ^ ((bits + f) % t)) * 2 ^ (f * rest.length) + toNum f rest := by
            rw [pow_add]
            ring
        _ = (acc % 2 ^ bits * 2 ^ f + v) * 2 ^ (f * rest.length) + toNum f rest := by rw [hX]
        _ = acc % 2 ^ bits * 2 ^ (f * (rest.length + 1))
            + (v * 2 ^ (f * rest.length) + toNum f rest) := by
            have hp : (2 : Nat) ^ (f * (rest.length + 1)) = 2 ^ f * 2 ^ (f * rest.length) := by
              rw [← pow_add]
              congr 1
              ring
            rw [hp]
            ring
        _ = acc % 2 ^ bits * 2 ^ (f * (rest.length + 1)) + toNum f (v :: rest) := by
            rw [toNum_cons]

/-! ### ConvertBits characterization and round trip -/

theorem convertBits_eq (data : List Nat) (f t : Nat) (pad : Bool) (gs : List Nat)
    (acc1 bits : Nat) (h : convertLoop f t data 0 0 [] = some (gs, acc1, bits)) :
    Bech32BaseUtils.ConvertBits data f t pad =
      if pad then
        if bits ≠ 0 then some (gs ++ [(acc1 <<< (t - bits)) &&& ((1 <<< t) - 1)]) else some gs
      else if f ≤ bits ∨ ((acc1 <<< (t - bits)) &&& ((1 <<< t) - 1)) ≠ 0 then none
      else some gs := by
  unfold Bech32BaseUtils.ConvertBits
  rw [h]

theorem padGroup_eq (acc1 b t : Nat) (hb : b ≤ t) :
    (acc1 <<< (t - b)) &&& ((1 <<< t) - 1) = acc1 % 2 ^ b * 2 ^ (t - b) := by
  rw [and_mask_eq_mod, Nat.shiftLeft_eq]
  have h2 : (2 : Nat) ^ t = 2 ^ b * 2 ^ (t - b) := by
    rw [← pow_add]
    congr 1
    omega
  rw [h2, Nat.mul_mod_mul_right]

theorem convertBits_pad_spec (f t : Nat) (hf : 0 < f) (ht : 0 < t)
    (data : List Nat) (hd : ∀ v ∈ data, v < 2 ^ f) :
    ∃ ys, Bech32BaseUtils.ConvertBits data f t true = some ys ∧
      (∀ y ∈ ys, y < 2 ^ t) ∧
      t * ys.length = f * data.length + (t - f * data.length % t) % t ∧
      toNum t ys = toNum f data * 2 ^ ((t - f * data.length % t) % t) := by
  obtain ⟨gs, acc1, hrun, hmem, hlen, hval⟩ := convertLoop_spec f t hf ht data hd 0 0 [] ht
  simp only [Nat.zero_add, List.nil_append] at hrun hlen hval
  simp only [pow_zero, Nat.zero_mod, Nat.zero_mul, Nat.zero_add] at hval
  have hdm := Nat.div_add_mod (f * data.length) t
  by_cases hb : f * data.length % t = 0
  · refine ⟨gs, ?_, hmem, ?_, ?_⟩
    · rw [convertBits_eq data f t true gs acc1 _ hrun, if_pos rfl, if_neg (by omega)]
    · rw [hlen, hb]
      simp only [Nat.sub_zero, Nat.mod_self]
      omega
    · rw [hb] at hval
      simp only [pow_zero, Nat.mul_one, Nat.mod_one, Nat.add_zero] at hval
      rw [hval, hb]
      simp
  · have hblt : f * data.length % t < t := Nat.mod_lt _ ht
    refine ⟨gs ++ [(acc1 <<< (t - f * data.length % t)) &&& ((1 <<< t) - 1)], ?_, ?_, ?_, ?_⟩
    · rw [convertBits_eq data f t true gs acc1 _ hrun, if_pos rfl, if_pos hb]
    · intro y hy
      rcases List.mem_append.mp hy with h1 | h1
      · exact hmem y h1
      · rcases List.mem_singleton.mp h1 with h2
        rw [h2, and_mask_eq_mod]
        exact Nat.mod_lt _ (Nat.two_pow_pos t)
    · simp only [List.length_append, List.length_singleton]
      rw [Nat.mod_eq_of_lt (by omega : t - f * data.length % t < t)]
      rw [hlen]
      have hmul : t * (f * data.length / t + 1) = t * (f * data.length / t) + t := by ring
      omega
    · rw [toNum_append, padGroup_eq _ _ _ (by omega), toNum_singleton]
      simp only [List.length_singleton, Nat.mul_one]
      rw [Nat.mod_eq_of_lt (by omega : t - f * data.length % t < t)]
      have h2 : (2 : Nat) ^ t = 2 ^ (f * data.length % t) * 2 ^ (t - f * data.length % t) := by
        rw [← pow_add]
        congr 1
        omega
      rw [h2, ← hval]
      ring


theorem convertBits_nopad_spec (f t : Nat) (hf : 0 < f) (ht : 0 < t)
    (ys : List Nat) (hy : ∀ v ∈ ys, v < 2 ^ f) :
    (¬ f ≤ f * ys.length % t ∧ toNum f ys % 2 ^ (f * ys.length % t) = 0 →
      ∃ zs, Bech32BaseUtils.ConvertBits ys f t false = some zs ∧
        (∀ z ∈ zs, z < 2 ^ t) ∧
        t * zs.length + f * ys.length % t = f * ys.length ∧
        toNum t zs * 2 ^ (f * ys.length % t) = toNum f ys) ∧
    (f ≤ f * ys.length % t ∨ toNum f ys % 2 ^ (f * ys.length % t) ≠ 0 →
      Bech32BaseUtils.ConvertBits ys f t false = none) := by
  obtain ⟨gs, acc1, hrun, hmem, hlen, hval⟩ := convertLoop_spec f t hf ht ys hy 0 0 [] ht
  simp only [Nat.zero_add, List.nil_append] at hrun hlen hval
  simp only [pow_zero, Nat.zero_mod, Nat.zero_mul, Nat.zero_add] at hval
  have hbt : f * ys.length % t < t := Nat.mod_lt _ ht
  have hleft : acc1 % 2 ^ (f * ys.length % t) = toNum f ys % 2 ^ (f * ys.length % t) := by
    have hc := congrArg (fun x => x % 2 ^ (f * ys.length % t)) hval
    simp only at hc
    rw [Nat.add_comm, Nat.add_mul_mod_self_right, Nat.mod_mod_of_dvd _ dvd_rfl] at hc
    exact hc
  have hchk : (acc1 <<< (t - f * ys.length % t)) &&& ((1 <<< t) - 1)
      = toNum f ys % 2 ^ (f * ys.length % t) * 2 ^ (t - f * ys.length % t) := by
    rw [padGroup_eq _ _ _ (by omega), hleft]
  constructor
  · rintro ⟨h1, h2⟩
    have hcond : ¬ (f ≤ f * ys.length % t ∨
        ((acc1 <<< (t - f * ys.length % t)) &&& ((1 <<< t) - 1)) ≠ 0) := by
      push_neg
      refine ⟨by omega, ?_⟩
      rw [hchk, h2, Nat.zero_mul]
    refine ⟨gs, ?_, hmem, ?_, ?_⟩
    · rw [convertBits_eq ys f t false gs acc1 _ hrun]
      rw [if_neg (by simp), if_neg hcond]
    · rw [hlen]
      have := Nat.div_add_mod (f * ys.length) t
      omega
    · rw [hleft, h2, Nat.add_zero] at hval
      exact hval
  · intro h
    have hcond : f ≤ f * ys.length % t ∨
        ((acc1 <<< (t - f * ys.length % t)) &&& ((1 <<< t) - 1)) ≠ 0 := by
      rcases h with h | h
      · exact Or.inl h
      · refine Or.inr ?_
        rw [hchk]
        exact Nat.mul_ne_zero h (Nat.pos_iff_ne_zero.mp (Nat.two_pow_pos _))
    rw [convertBits_eq ys f t false gs acc1 _ hrun]
    rw [if_neg (by simp), if_pos hcond]

theorem convert_roundtrip (data : List Nat) (hd : ∀ b ∈ data, b < 256) :
    ∃ syms, Bech32BaseUtils.ConvertToBase32 data = .ok syms ∧
      (∀ v ∈ syms, v < 32) ∧
      syms.length = (8 * data.length + 4) / 5 ∧
      Bech32BaseUtils.ConvertFromBase32 syms = .ok data := by
  have hd' : ∀ v ∈ data, v < 2 ^ 8 := by
    intro v hv
    have := hd v hv
    omega
  obtain ⟨ys, hconv, hmem, hlen, hval⟩ :=
    convertBits_pad_spec 8 5 (by norm_num) (by norm_num) data hd'
  have hp5 : (5 - 8 * data.length % 5) % 5 < 5 := Nat.mod_lt _ (by norm_num)
  refine ⟨ys, ?_, ?_, by omega, ?_⟩
  · unfold Bech32BaseUtils.ConvertToBase32
    rw [hconv]
  · intro v hv
    have := hmem v hv
    omega
  · have hy5 : ∀ v ∈ ys, v < 2 ^ 5 := hmem
    obtain ⟨hsome, _⟩ := convertBits_nopad_spec 5 8 (by norm_num) (by norm_num) ys hy5
    have hb8 : 5 * ys.length % 8 = (5 - 8 * data.length % 5) % 5 := by omega
    have hz : toNum 5 ys % 2 ^ (5 * ys.length % 8) = 0 := by
      rw [hb8, hval]
      exact Nat.mul_mod_left _ _
    obtain ⟨zs, hcv, hzmem, hzlen, hzval⟩ := hsome ⟨by omega, hz⟩
    rw [hb8] at hzlen hzval
    have hlz : zs.length = data.length := by omega
    have hteq : toNum 8 zs = toNum 8 data := by
      refine Nat.eq_of_mul_eq_mul_right (Nat.two_pow_pos ((5 - 8 * data.length % 5) % 5)) ?_
      rw [hzval, hval]
    have hzd : zs = data := toNum_inj 8 zs data hlz hzmem hd' hteq
    unfold Bech32BaseUtils.ConvertFromBase32
    rw [hcv, hzd]

/-! ### Checksum engine: linearity and correctness -/

theorem nat_xor_left_comm (a b c : Nat) : a ^^^ (b ^^^ c) = b ^^^ (a ^^^ c) := by
  rw [← Nat.xor_assoc, Nat.xor_comm a b, Nat.xor_assoc]

theorem ite_xor_pair (p q : Bool) (G : Nat) :
    (if (p ^^ q) then G else 0) = (if p then G else 0) ^^^ (if q then G else 0) := by
  cases p <;> cases q <;> simp

theorem polymodG_zero : polymodG 0 = 0 := by
  simp [polymodG]

theorem polymodG_xor (a b : Nat) : polymodG (a ^^^ b) = polymodG a ^^^ polymodG b := by
  unfold polymodG
  simp only [Nat.testBit_xor, ite_xor_pair]
  simp [Nat.xor_assoc, Nat.xor_comm, nat_xor_left_comm]

theorem polymodG_lt (top : Nat) : polymodG top < 2 ^ 30 := by
  unfold polymodG
  split_ifs <;> decide

theorem polymodStep_lt (chk : Nat) {v : Nat} (hv : v < 2 ^ 30) : polymodStep chk v < 2 ^ 30 := by
  unfold polymodStep
  have hm : (0x1ffffff : Nat) = 2 ^ 25 - 1 := by norm_num
  have h1 : (chk &&& 0x1ffffff) <<< 5 < 2 ^ 30 := by
    rw [hm, Nat.and_pow_two_sub_one_eq_mod, Nat.shiftLeft_eq]
    have h2 := Nat.mod_lt chk (Nat.two_pow_pos 25)
    calc chk % 2 ^ 25 * 2 ^ 5 ≤ (2 ^ 25 - 1) * 2 ^ 5 := Nat.mul_le_mul_right _ (by omega)
      _ < 2 ^ 30 := by norm_num
  exact Nat.xor_lt_two_pow (Nat.xor_lt_two_pow h1 hv) (polymodG_lt _)

theorem polymodFold_cons (chk x : Nat) (xs : List Nat) :
    polymodFold chk (x :: xs) = polymodFold (polymodStep chk x) xs := rfl

theorem polymodFold_append (chk : Nat) (xs ys : List Nat) :
    polymodFold chk (xs ++ ys) = polymodFold (polymodFold chk xs) ys := by
  unfold polymodFold
  exact List.foldl_append _ _ _ _

theorem polymodFold_lt : ∀ (vs : List Nat), (∀ v ∈ vs, v < 2 ^ 30) → ∀ chk : Nat,
    chk < 2 ^ 30 → polymodFold chk vs < 2 ^ 30 := by
  intro vs
  induction vs with
  | nil => intro _ chk hc; exact hc
  | cons v vs ih =>
    intro hv chk _
    rw [polymodFold_cons]
    exact ih (fun x hx => hv x (List.mem_cons_of_mem _ hx))
      _ (polymodStep_lt chk (hv v (List.mem_cons_self _ _)))

theorem polymodStep_xor (a b v w : Nat) :
    polymodStep (a ^^^ b) (v ^^^ w) = polymodStep a v ^^^ polymodStep b w := by
  unfold polymodStep
  rw [Nat.and_xor_distrib_right, xor_shiftLeft_distrib, xor_shiftRight_distrib, polymodG_xor]
  simp [Nat.xor_assoc, Nat.xor_comm, nat_xor_left_comm]

theorem polymodFold_xor : ∀ vs ws : List Nat, vs.length = ws.length → ∀ a b : Nat,
    polymodFold (a ^^^ b) (List.zipWith (· ^^^ ·) vs ws)
      = polymodFold a vs ^^^ polymodFold b ws := by
  intro vs
  induction vs with
  | nil =>
    intro ws h a b
    cases ws with
    | nil => simp [polymodFold]
    | cons w ws => simp at h
  | cons v vs ih =>
    intro ws h a b
    cases ws with
    | nil => simp at h
    | cons w ws =>
      simp only [List.zipWith_cons_cons]
      rw [polymodFold_cons, polymodFold_cons, polymodFold_cons, polymodStep_xor]
      exact ih ws (by simpa using h) _ _

theorem zipWith_xor_zero_left : ∀ ws : List Nat,
    List.zipWith (· ^^^ ·) (List.replicate ws.length 0) ws = ws := by
  intro ws
  induction ws with
  | nil => rfl
  | cons w ws ih =>
    simp only [List.length_cons, List.replicate_succ, List.zipWith_cons_cons, Nat.zero_xor, ih]

theorem zipWith_xor_zero_right : ∀ vs : List Nat,
    List.zipWith (· ^^^ ·) vs (List.replicate vs.length 0) = vs := by
  intro vs
  induction vs with
  | nil => rfl
  | cons v vs ih =>
    simp only [List.length_cons, List.replicate_succ, List.zipWith_cons_cons, Nat.xor_zero, ih]

theorem polymodStep_zero_zero : polymodStep 0 0 = 0 := by
  simp [polymodStep, polymodG_zero]

theorem polymodFold_zero_replicate (k : Nat) : polymodFold 0 (List.replicate k 0) = 0 := by
  induction k with
  | zero => rfl
  | succ k ih => rw [List.replicate_succ, polymodFold_cons, polymodStep_zero_zero, ih]

theorem polymodStep_chunk (x j : Nat) (hx : x < 2 ^ 30) :
    polymodStep (x >>> (j + 5)) ((x >>> j) &&& 31) = x >>> j := by
  have h1 : x >>> (j + 5) < 2 ^ 25 := by
    rw [Nat.shiftRight_eq_div_pow]
    have h2 : (2 : Nat) ^ (j + 5) = 2 ^ j * 2 ^ 5 := pow_add 2 j 5
    rw [h2, ← Nat.div_div_eq_div_mul]
    have h3 : x / 2 ^ j / 2 ^ 5 ≤ x / 2 ^ 5 :=
      Nat.div_le_div_right (Nat.div_le_self _ _)
    have h4 : x / 2 ^ 5 < 2 ^ 25 := by
      rw [Nat.div_lt_iff_lt_mul (by norm_num : 0 < 2 ^ 5)]
      calc x < 2 ^ 30 := hx
        _ = 2 ^ 25 * 2 ^ 5 := by norm_num
    omega
  have hmask : (x >>> (j + 5)) &&& 0x1ffffff = x >>> (j + 5) := by
    rw [show (0x1ffffff : Nat) = 2 ^ 25 - 1 by norm_num]
    exact Nat.and_pow_two_sub_one_of_lt_two_pow h1
  have htop : (x >>> (j + 5)) >>> 25 = 0 := by
    rw [← Nat.shiftRight_add, Nat.shiftRight_eq_div_pow]
    refine Nat.div_eq_of_lt (Nat.lt_of_lt_of_le hx ?_)
    exact Nat.pow_le_pow_right (by norm_num) (by omega)
  unfold polymodStep
  rw [hmask, htop, polymodG_zero, Nat.xor_zero]
  exact shiftRight_recompose x j

theorem range6_map {α : Type} (f : Nat → α) :
    (List.range 6).map f = [f 0, f 1, f 2, f 3, f 4, f 5] := rfl

theorem computeChecksum_chunks (hrp : List Char) (data : List Nat) :
    SegwitBech32Utils.ComputeChecksum hrp data =
      [(SegwitBech32Utils.PolyMod ((SegwitBech32Utils.HrpExpand hrp ++ data) ++ [0, 0, 0, 0, 0, 0]) ^^^ 1) >>> 25 &&& 31,
       (SegwitBech32Utils.PolyMod ((SegwitBech32Utils.HrpExpand hrp ++ data) ++ [0, 0, 0, 0, 0, 0]) ^^^ 1) >>> 20 &&& 31,
       (SegwitBech32Utils.PolyMod ((SegwitBech32Utils.HrpExpand hrp ++ data) ++ [0, 0, 0, 0, 0, 0]) ^^^ 1) >>> 15 &&& 31,
       (SegwitBech32Utils.PolyMod ((SegwitBech32Utils.HrpExpand hrp ++ data) ++ [0, 0, 0, 0, 0, 0]) ^^^ 1) >>> 10 &&& 31,
       (SegwitBech32Utils.PolyMod ((SegwitBech32Utils.HrpExpand hrp ++ data) ++ [0, 0, 0, 0, 0, 0]) ^^^ 1) >>> 5 &&& 31,
       (SegwitBech32Utils.PolyMod ((SegwitBech32Utils.HrpExpand hrp ++ data) ++ [0, 0, 0, 0, 0, 0]) ^^^ 1) >>> 0 &&& 31] := by
  unfold SegwitBech32Utils.ComputeChecksum
  rw [range6_map]

theorem polymodFold_chunks (pm : Nat) (h : pm < 2 ^ 30) :
    polymodFold 0 [pm >>> 25 &&& 31, pm >>> 20 &&& 31, pm >>> 15 &&& 31,
      pm >>> 10 &&& 31, pm >>> 5 &&& 31, pm >>> 0 &&& 31] = pm := by
  have h0 : pm >>> 30 = 0 := by
    rw [Nat.shiftRight_eq_div_pow]
    exact Nat.div_eq_of_lt h
  have s0 : polymodStep 0 (pm >>> 25 &&& 31) = pm >>> 25 := by
    have hc := polymodStep_chunk pm 25 h
    rwa [show 25 + 5 = 30 from rfl, h0] at hc
  have s1 : polymodStep (pm >>> 25) (pm >>> 20 &&& 31) = pm >>> 20 := by
    have hc := polymodStep_chunk pm 20 h
    rwa [show 20 + 5 = 25 from rfl] at hc
  have s2 : polymodStep (pm >>> 20) (pm >>> 15 &&& 31) = pm >>> 15 := by
    have hc := polymodStep_chunk pm 15 h
    rwa [show 15 + 5 = 20 from rfl] at hc
  have s3 : polymodStep (pm >>> 15) (pm >>> 10 &&& 31) = pm >>> 10 := by
    have hc := polymodStep_chunk pm 10 h
    rwa [show 10 + 5 = 15 from rfl] at hc
  have s4 : polymodStep (pm >>> 10) (pm >>> 5 &&& 31) = pm >>> 5 := by
    have hc := polymodStep_chunk pm 5 h
    rwa [show 5 + 5 = 10 from rfl] at hc
  have s5 : polymodStep (pm >>> 5) (pm >>> 0 &&& 31) = pm >>> 0 := by
    have hc := polymodStep_chunk pm 0 h
    rwa [show 0 + 5 = 5 from rfl] at hc
  rw [polymodFold]
  rw [List.foldl_cons, s0, List.foldl_cons, s1, List.foldl_cons, s2, List.foldl_cons, s3,
    List.foldl_cons, s4, List.foldl_cons, s5, List.foldl_nil, Nat.shiftRight_zero]

theorem hrpExpand_lt (hrp : List Char) : ∀ v ∈ SegwitBech32Utils.HrpExpand hrp, v < 2 ^ 30 := by
  intro v hv
  unfold SegwitBech32Utils.HrpExpand at hv
  simp only [List.mem_append, List.mem_map, List.mem_singleton] at hv
  rcases hv with (⟨c, _, rfl⟩ | hv0) | ⟨c, _, rfl⟩
  · rw [Nat.shiftRight_eq_div_pow]
    have h1 : c.toNat < 4294967296 := UInt32.toNat_lt_size c.val
    have h2 : c.toNat / 2 ^ 5 < 2 ^ 27 := by
      rw [Nat.div_lt_iff_lt_mul (by norm_num : 0 < 2 ^ 5)]
      calc c.toNat < 4294967296 := h1
        _ = 2 ^ 27 * 2 ^ 5 := by norm_num
    exact lt_of_lt_of_le h2 (by norm_num)
  · rw [hv0]
    norm_num
  · have h1 : c.toNat &&& 31 ≤ 31 := Nat.and_le_right
    omega

theorem segwit_verify_compute (hrp : List Char) (data : List Nat)
    (hd : ∀ v ∈ data, v < 2 ^ 30) :
    SegwitBech32Utils.VerifyChecksum hrp
      (data ++ SegwitBech32Utils.ComputeChecksum hrp data) = true := by
  unfold SegwitBech32Utils.VerifyChecksum
  simp only [beq_iff_eq]
  set cs := SegwitBech32Utils.ComputeChecksum hrp data with hcs
  have hassoc : SegwitBech32Utils.HrpExpand hrp ++ (data ++ cs)
      = (SegwitBech32Utils.HrpExpand hrp ++ data) ++ cs := (List.append_assoc _ _ _).symm
  unfold SegwitBech32Utils.PolyMod
  rw [hassoc, polymodFold_append]
  set S := polymodFold 1 (SegwitBech32Utils.HrpExpand hrp ++ data) with hS
  set P := polymodFold S [0, 0, 0, 0, 0, 0] with hP
  have hPbound : P < 2 ^ 30 := by
    rw [hP, hS, ← polymodFold_append]
    refine polymodFold_lt _ ?_ 1 (by norm_num)
    intro v hv
    rcases List.mem_append.mp hv with h1 | h1
    · rcases List.mem_append.mp h1 with h2 | h2
      · exact hrpExpand_lt hrp v h2
      · exact hd v h2
    · simp only [List.mem_cons, List.not_mem_nil, or_false] at h1
      rcases h1 with rfl | rfl | rfl | rfl | rfl | rfl <;> norm_num
  have hpm : P ^^^ 1 < 2 ^ 30 := Nat.xor_lt_two_pow hPbound (by norm_num)
  have hPP : SegwitBech32Utils.PolyMod
      ((SegwitBech32Utils.HrpExpand hrp ++ data) ++ [0, 0, 0, 0, 0, 0]) = P := by
    rw [hP, hS]
    unfold SegwitBech32Utils.PolyMod
    rw [polymodFold_append]
  have hcs_eq : cs = [(P ^^^ 1) >>> 25 &&& 31, (P ^^^ 1) >>> 20 &&& 31, (P ^^^ 1) >>> 15 &&& 31,
      (P ^^^ 1) >>> 10 &&& 31, (P ^^^ 1) >>> 5 &&& 31, (P ^^^ 1) >>> 0 &&& 31] := by
    rw [hcs, computeChecksum_chunks, hPP]
  have hfold0 : polymodFold 0 cs = P ^^^ 1 := by
    rw [hcs_eq]
    exact polymodFold_chunks _ hpm
  have hlen6 : cs.length = 6 := by rw [hcs_eq]; rfl
  have hlin : polymodFold S cs = polymodFold S [0, 0, 0, 0, 0, 0] ^^^ polymodFold 0 cs := by
    have hz : List.zipWith (· ^^^ ·) (List.replicate cs.length 0) cs = cs :=
      zipWith_xor_zero_left cs
    have h6 : List.replicate 6 (0 : Nat) = [0, 0, 0, 0, 0, 0] := rfl
    calc polymodFold S cs
        = polymodFold (S ^^^ 0) (List.zipWith (· ^^^ ·) (List.replicate cs.length 0) cs) := by
          rw [Nat.xor_zero, hz]
      _ = polymodFold S (List.replicate cs.length 0) ^^^ polymodFold 0 cs := by
          refine polymodFold_xor _ _ ?_ _ _
          simp
      _ = polymodFold S [0, 0, 0, 0, 0, 0] ^^^ polymodFold 0 cs := by rw [hlen6, h6]
  rw [hlin, ← hP, hfold0, ← Nat.xor_assoc, Nat.xor_self, Nat.zero_xor]

/-! ### Checksum engine: single-symbol error detection -/

theorem polymodStep_xor_value (chk v d : Nat) :
    polymodStep chk (v ^^^ d) = polymodStep chk v ^^^ d := by
  unfold polymodStep
  simp [Nat.xor_assoc, Nat.xor_comm, nat_xor_left_comm]

theorem polymodFold_xor_replicate (a d : Nat) (rest : List Nat) :
    polymodFold (a ^^^ d) rest
      = polymodFold a rest ^^^ polymodFold d (List.replicate rest.length 0) := by
  have hz := zipWith_xor_zero_right rest
  calc polymodFold (a ^^^ d) rest
      = polymodFold (a ^^^ d) (List.zipWith (· ^^^ ·) rest (List.replicate rest.length 0)) := by
        rw [hz]
    _ = polymodFold a rest ^^^ polymodFold d (List.replicate rest.length 0) :=
        polymodFold_xor _ _ (by simp) _ _

theorem polymodFold_set_decomp (l1 l2 : List Nat) (d e chk : Nat) :
    polymodFold chk (l1 ++ e :: l2)
      = polymodFold chk (l1 ++ d :: l2) ^^^ polymodFold (d ^^^ e) (List.replicate l2.length 0) := by
  rw [polymodFold_append, polymodFold_append, polymodFold_cons, polymodFold_cons]
  have h1 : polymodStep (polymodFold chk l1) e
      = polymodStep (polymodFold chk l1) d ^^^ (d ^^^ e) := by
    conv_lhs => rw [show e = d ^^^ (d ^^^ e) by rw [← Nat.xor_assoc, Nat.xor_self, Nat.zero_xor]]
    exact polymodStep_xor_value _ d (d ^^^ e)
  rw [h1]
  exact polymodFold_xor_replicate _ _ l2

theorem low5_generator_ne : ∀ top : Nat, top < 32 → top ≠ 0 → polymodG top &&& 31 ≠ 0 := by
  decide

theorem polymodStep_zero_ne (chk : Nat) (h0 : chk ≠ 0) (h30 : chk < 2 ^ 30) :
    polymodStep chk 0 ≠ 0 := by
  by_cases htop : chk >>> 25 = 0
  · have hlt : chk < 2 ^ 25 := by
      rw [Nat.shiftRight_eq_div_pow] at htop
      rcases Nat.lt_or_ge chk (2 ^ 25) with h | h
      · exact h
      · exfalso
        have h1 : 1 ≤ chk / 2 ^ 25 := (Nat.le_div_iff_mul_le (by norm_num)).mpr (by omega)
        omega
    unfold polymodStep
    rw [htop, polymodG_zero, Nat.xor_zero, Nat.xor_zero]
    rw [show (0x1ffffff : Nat) = 2 ^ 25 - 1 by norm_num,
      Nat.and_pow_two_sub_one_of_lt_two_pow hlt, Nat.shiftLeft_eq]
    exact Nat.mul_ne_zero h0 (by norm_num)
  · have htlt : chk >>> 25 < 32 := by
      rw [Nat.shiftRight_eq_div_pow]
      rw [Nat.div_lt_iff_lt_mul (by norm_num : 0 < 2 ^ 25)]
      calc chk < 2 ^ 30 := h30
        _ = 32 * 2 ^ 25 := by norm_num
    have hg : polymodG (chk >>> 25) &&& 31 ≠ 0 := low5_generator_ne _ htlt htop
    intro hc
    apply hg
    have hlow : polymodStep chk 0 &&& 31 = polymodG (chk >>> 25) &&& 31 := by
      unfold polymodStep
      rw [Nat.xor_zero, Nat.and_xor_distrib_right]
      have hz : ((chk &&& 0x1ffffff) <<< 5) &&& 31 = 0 := by
        rw [Nat.shiftLeft_eq, show (31 : Nat) = 2 ^ 5 - 1 by norm_num,
          Nat.and_pow_two_sub_one_eq_mod]
        exact Nat.mul_mod_left _ _
      rw [hz, Nat.zero_xor]
    rw [← hlow, hc]
    exact Nat.zero_and 31

theorem polymodFold_replicate_zero_ne (j : Nat) : ∀ chk : Nat, chk ≠ 0 → chk < 2 ^ 30 →
    polymodFold chk (List.replicate j 0) ≠ 0 ∧ polymodFold chk (List.replicate j 0) < 2 ^ 30 := by
  induction j with
  | zero => intro chk h0 h30; exact ⟨h0, h30⟩
  | succ j ih =>
    intro chk h0 h30
    rw [List.replicate_succ, polymodFold_cons]
    exact ih _ (polymodStep_zero_ne chk h0 h30) (polymodStep_lt chk (by norm_num))

theorem segwit_verify_single_change (hrp : List Char) (s1 s2 : List Nat) (d e : Nat)
    (hd : d < 2 ^ 30) (he : e < 2 ^ 30) (hne : e ≠ d)
    (hver : SegwitBech32Utils.VerifyChecksum hrp (s1 ++ d :: s2) = true) :
    SegwitBech32Utils.VerifyChecksum hrp (s1 ++ e :: s2) = false := by
  unfold SegwitBech32Utils.VerifyChecksum SegwitBech32Utils.PolyMod at *
  simp only [beq_iff_eq] at hver
  simp only [beq_eq_false_iff_ne]
  have hre : SegwitBech32Utils.HrpExpand hrp ++ (s1 ++ e :: s2)
      = (SegwitBech32Utils.HrpExpand hrp ++ s1) ++ e :: s2 := by rw [List.append_assoc]
  have hrd : SegwitBech32Utils.HrpExpand hrp ++ (s1 ++ d :: s2)
      = (SegwitBech32Utils.HrpExpand hrp ++ s1) ++ d :: s2 := by rw [List.append_assoc]
  rw [hre]
  rw [hrd] at hver
  rw [polymodFold_set_decomp _ s2 d e 1, hver]
  have hδ : d ^^^ e ≠ 0 := fun hc => hne (Nat.xor_eq_zero.mp hc).symm
  obtain ⟨hnz, _⟩ :=
    polymodFold_replicate_zero_ne s2.length (d ^^^ e) hδ (Nat.xor_lt_two_pow hd he)
  intro hc
  apply hnz
  have h2 := congrArg (fun y => 1 ^^^ y) hc
  simpa [← Nat.xor_assoc, Nat.xor_self, Nat.zero_xor] using h2

/-! ### Charset and string-handling lemmas -/

theorem charset_mem_of_lt : ∀ v : Nat, v < 32 → charsetChar v ∈ Bech32BaseConst.CHARSET := by
  decide

theorem charset_indexOf_charsetChar :
    ∀ v : Nat, v < 32 → List.indexOf (charsetChar v) Bech32BaseConst.CHARSET = v := by
  decide

theorem charset_char_facts : ∀ c ∈ Bech32BaseConst.CHARSET,
    33 ≤ c.toNat ∧ c.toNat ≤ 126 ∧ asciiLowerChar c = c ∧ c ≠ '1' := by
  decide

theorem sep_char_facts : asciiLowerChar '1' = '1' ∧ 33 ≤ ('1' : Char).toNat ∧
    ('1' : Char).toNat ≤ 126 := by
  decide

theorem pyLower_fix (s : List Char) (h : ∀ c ∈ s, asciiLowerChar c = c) : pyLower s = s := by
  unfold pyLower
  rw [List.map_congr_left h, List.map_id']

theorem rfindIdx_not_mem (ds : List Char) (c : Char) (h : c ∉ ds) : rfindIdx ds c = none := by
  induction ds with
  | nil => rfl
  | cons a rest ih =>
    have h1 : c ∉ rest := fun hc => h (List.mem_cons_of_mem _ hc)
    have h2 : a ≠ c := fun hc => h (hc ▸ List.mem_cons_self _ _)
    simp [rfindIdx, ih h1, h2]

theorem rfindIdx_append_sep (l : List Char) (ds : List Char) (c : Char)
    (h : rfindIdx ds c = none) : rfindIdx (l ++ c :: ds) c = some l.length := by
  induction l with
  | nil => simp [rfindIdx, h]
  | cons a rest ih => simp [rfindIdx, ih]

theorem take_len_append {α : Type} (l r : List α) : (l ++ r).take l.length = l := by
  induction l with
  | nil => rfl
  | cons a rest ih => simp [ih]

theorem drop_len_succ_append {α : Type} (l : List α) (c : α) (ds : List α) :
    (l ++ c :: ds).drop (l.length + 1) = ds := by
  induction l with
  | nil => rfl
  | cons a rest ih => simpa using ih

theorem decodeBech32_parsed (bechStr : List Char) (sep : Char) (checksumLen : Nat)
    (verify : List Char → List Nat → Bool) (sepPos : Nat)
    (hcond : ¬ ((∃ c ∈ bechStr, c.toNat < 33 ∨ 126 < c.toNat) ∨
      (pyLower bechStr ≠ bechStr ∧ pyUpper bechStr ≠ bechStr)))
    (hfind : rfindIdx (pyLower bechStr) sep = some sepPos) :
    Bech32DecoderBase.DecodeBech32 bechStr sep checksumLen verify =
      (if (pyLower bechStr).take sepPos = [] ∨
          ((pyLower bechStr).drop (sepPos + 1)).length < checksumLen then
        .error (.formatError "Invalid format (HRP or data length not valid)")
      else if ¬ (∀ c ∈ (pyLower bechStr).drop (sepPos + 1), c ∈ Bech32BaseConst.CHARSET) then
        .error (.formatError "Invalid format (data part not valid)")
      else if verify ((pyLower bechStr).take sepPos)
          (((pyLower bechStr).drop (sepPos + 1)).map
            (fun c => List.indexOf c Bech32BaseConst.CHARSET)) then
        .ok (((pyLower bechStr).take sepPos),
          ((((pyLower bechStr).drop (sepPos + 1)).map
            (fun c => List.indexOf c Bech32BaseConst.CHARSET)).take
              ((((pyLower bechStr).drop (sepPos + 1)).map
                (fun c => List.indexOf c Bech32BaseConst.CHARSET)).length - checksumLen)))
      else
        .error (.checksumError "Invalid checksum")) := by
  unfold Bech32DecoderBase.DecodeBech32
  rw [if_neg hcond]
  simp only [hfind]

theorem encoded_string_lower_fix (hrp : List Char) (syms : List Nat)
    (hchars : ∀ c ∈ hrp, 33 ≤ c.toNat ∧ c.toNat ≤ 126 ∧ asciiLowerChar c = c)
    (hs : ∀ v ∈ syms, v < 32) :
    pyLower (hrp ++ '1' :: syms.map charsetChar) = hrp ++ '1' :: syms.map charsetChar := by
  refine pyLower_fix _ ?_
  intro c hc
  rcases List.mem_append.mp hc with h1 | h1
  · exact (hchars c h1).2.2
  · rcases List.mem_cons.mp h1 with h2 | h2
    · rw [h2]
      exact sep_char_facts.1
    · obtain ⟨v, hv, rfl⟩ := List.mem_map.mp h2
      exact (charset_char_facts _ (charset_mem_of_lt v (hs v hv))).2.2.1

theorem encoded_string_cond (hrp : List Char) (syms : List Nat)
    (hchars : ∀ c ∈ hrp, 33 ≤ c.toNat ∧ c.toNat ≤ 126 ∧ asciiLowerChar c = c)
    (hs : ∀ v ∈ syms, v < 32) :
    ¬ ((∃ c ∈ hrp ++ '1' :: syms.map charsetChar, c.toNat < 33 ∨ 126 < c.toNat) ∨
      (pyLower (hrp ++ '1' :: syms.map charsetChar) ≠ hrp ++ '1' :: syms.map charsetChar ∧
        pyUpper (hrp ++ '1' :: syms.map charsetChar) ≠ hrp ++ '1' :: syms.map charsetChar)) := by
  push_neg
  constructor
  · intro c hc
    rcases List.mem_append.mp hc with h1 | h1
    · have := hchars c h1
      omega
    · rcases List.mem_cons.mp h1 with h2 | h2
      · rw [h2]
        have := sep_char_facts
        omega
      · obtain ⟨v, hv, rfl⟩ := List.mem_map.mp h2
        have := charset_char_facts _ (charset_mem_of_lt v (hs v hv))
        omega
  · intro hne
    exact absurd (encoded_string_lower_fix hrp syms hchars hs) hne

theorem decodeBech32_encoded (hrp : List Char) (syms : List Nat)
    (verify : List Char → List Nat → Bool)
    (hh : ValidHrp hrp) (hs : ∀ v ∈ syms, v < 32) (hlen : 6 ≤ syms.length) :
    Bech32DecoderBase.DecodeBech32 (hrp ++ '1' :: syms.map charsetChar) '1' 6 verify =
      if verify hrp syms = true then Except.ok (hrp, syms.take (syms.length - 6))
      else Except.error (.checksumError "Invalid checksum") := by
  obtain ⟨hne, hchars⟩ := hh
  have hlow := encoded_string_lower_fix hrp syms hchars hs
  have hsep_none : rfindIdx (syms.map charsetChar) '1' = none := by
    refine rfindIdx_not_mem _ _ ?_
    intro hc
    obtain ⟨v, hv, hveq⟩ := List.mem_map.mp hc
    exact (charset_char_facts _ (charset_mem_of_lt v (hs v hv))).2.2.2 hveq
  have hfind : rfindIdx (pyLower (hrp ++ '1' :: syms.map charsetChar)) '1'
      = some hrp.length := by
    rw [hlow]
    exact rfindIdx_append_sep hrp _ '1' hsep_none
  rw [decodeBech32_parsed _ '1' 6 verify hrp.length
    (encoded_string_cond hrp syms hchars hs) hfind]
  rw [hlow, take_len_append, drop_len_succ_append]
  rw [if_neg (by
    push_neg
    refine ⟨hne, ?_⟩
    rw [List.length_map]
    omega)]
  rw [if_neg (by
    push_neg
    intro c hc
    obtain ⟨v, hv, rfl⟩ := List.mem_map.mp hc
    exact charset_mem_of_lt v (hs v hv))]
  have hback : (syms.map charsetChar).map (fun c => List.indexOf c Bech32BaseConst.CHARSET)
      = syms := by
    rw [List.map_map]
    have hcg : ∀ v ∈ syms,
        ((fun c => List.indexOf c Bech32BaseConst.CHARSET) ∘ charsetChar) v = v := by
      intro v hv
      exact charset_indexOf_charsetChar v (hs v hv)
    rw [List.map_congr_left hcg, List.map_id']
  rw [hback]

theorem encodeBech32_ok (hrp : List Char) (d : List Nat)
    (cc : List Char → List Nat → List Nat) (hh : ValidHrp hrp) :
    Bech32EncoderBase.EncodeBech32 hrp d '1' cc
      = .ok (hrp ++ '1' :: (d ++ cc hrp d).map charsetChar) := by
  obtain ⟨hne, hchars⟩ := hh
  unfold Bech32EncoderBase.EncodeBech32
  rw [if_neg ?_]
  push_neg
  refine ⟨hne, ?_, ?_⟩
  · intro c hc
    have := hchars c hc
    omega
  · intro hcon
    exact absurd (pyLower_fix hrp (fun c hc => (hchars c hc).2.2)) hcon

theorem computeChecksum_lt (hrp : List Char) (data : List Nat) :
    ∀ v ∈ SegwitBech32Utils.ComputeChecksum hrp data, v < 32 := by
  intro v hv
  rw [computeChecksum_chunks] at hv
  simp only [List.mem_cons, List.not_mem_nil, or_false] at hv
  have hle : ∀ x : Nat, x &&& 31 ≤ 31 := fun x => Nat.and_le_right
  rcases hv with rfl | rfl | rfl | rfl | rfl | rfl <;>
    exact lt_of_le_of_lt (hle _) (by norm_num)

theorem computeChecksum_length (hrp : List Char) (data : List Nat) :
    (SegwitBech32Utils.ComputeChecksum hrp data).length = 6 := by
  rw [computeChecksum_chunks]
  rfl

theorem atomSep_eq : AtomBech32Const.SEPARATOR = '1' := rfl

theorem atomCkLen_eq : AtomBech32Const.CHECKSUM_LEN = 6 := rfl

theorem atomEncode_ok (hrp : List Char) (data : List Nat) (hh : ValidHrp hrp)
    (hd : ∀ b ∈ data, b < 256) :
    ∃ syms, Bech32BaseUtils.ConvertToBase32 data = .ok syms ∧ (∀ v ∈ syms, v < 32) ∧
      syms.length = (8 * data.length + 4) / 5 ∧
      Bech32BaseUtils.ConvertFromBase32 syms = .ok data ∧
      AtomBech32Encoder.Encode hrp data
        = .ok (hrp ++ '1' ::
            (syms ++ SegwitBech32Utils.ComputeChecksum hrp syms).map charsetChar) := by
  obtain ⟨syms, h1, h2, h3, h4⟩ := convert_roundtrip data hd
  refine ⟨syms, h1, h2, h3, h4, ?_⟩
  unfold AtomBech32Encoder.Encode
  rw [h1, atomSep_eq]
  exact encodeBech32_ok hrp syms AtomBech32Encoder.ComputeChecksum hh

/-- The decoded pair produced by `Decode` on a canonically-encoded string. -/
theorem atomDecodeBech32_encoded (hrp : List Char) (syms : List Nat) (hh : ValidHrp hrp)
    (hs : ∀ v ∈ syms, v < 32) (hlen : 6 ≤ syms.length) :
    Bech32DecoderBase.DecodeBech32 (hrp ++ '1' :: syms.map charsetChar)
        AtomBech32Const.SEPARATOR AtomBech32Const.CHECKSUM_LEN AtomBech32Decoder.VerifyChecksum =
      if SegwitBech32Utils.VerifyChecksum hrp syms = true then
        Except.ok (hrp, syms.take (syms.length - 6))
      else Except.error (.checksumError "Invalid checksum") := by
  rw [atomSep_eq, atomCkLen_eq]
  exact decodeBech32_encoded hrp syms AtomBech32Decoder.VerifyChecksum hh hs hlen

theorem atomDecode_eq_ok (hrp addr hrpgot : List Char) (d : List Nat)
    (h : Bech32DecoderBase.DecodeBech32 addr AtomBech32Const.SEPARATOR
      AtomBech32Const.CHECKSUM_LEN AtomBech32Decoder.VerifyChecksum = .ok (hrpgot, d)) :
    AtomBech32Decoder.Decode hrp addr =
      (if hrpgot ≠ hrp then
        .error (.formatError ("Invalid format (HRP not valid, expected " ++ String.mk hrp ++
          ", got " ++ String.mk hrpgot ++ ")"))
      else
        match Bech32BaseUtils.ConvertFromBase32 d with
        | .error e => .error e
        | .ok convData =>
          if convData.length < AtomBech32Const.DATA_MIN_LEN ∨
              AtomBech32Const.DATA_MAX_LEN < convData.length then
            .error (.formatError "Invalid format (length not valid)")
          else .ok convData) := by
  unfold AtomBech32Decoder.Decode
  rw [h]

theorem atomDecode_eq_error (hrp addr : List Char) (e : Bech32Err)
    (h : Bech32DecoderBase.DecodeBech32 addr AtomBech32Const.SEPARATOR
      AtomBech32Const.CHECKSUM_LEN AtomBech32Decoder.VerifyChecksum = .error e) :
    AtomBech32Decoder.Decode hrp addr = .error e := by
  unfold AtomBech32Decoder.Decode
  rw [h]

theorem atom_roundtrip (hrp : List Char) (data : List Nat) (hh : ValidHrp hrp)
    (hd : ∀ b ∈ data, b < 256) :
    ∃ syms, AtomBech32Encoder.Encode hrp data
        = .ok (hrp ++ '1' ::
            (syms ++ SegwitBech32Utils.ComputeChecksum hrp syms).map charsetChar) ∧
      syms.length = (8 * data.length + 4) / 5 ∧
      AtomBech32Decoder.Decode hrp (hrp ++ '1' ::
          (syms ++ SegwitBech32Utils.ComputeChecksum hrp syms).map charsetChar) =
        (if data.length < AtomBech32Const.DATA_MIN_LEN ∨
            AtomBech32Const.DATA_MAX_LEN < data.length then
          .error (.formatError "Invalid format (length not valid)")
        else .ok data) := by
  obtain ⟨syms, h1, h2, h3, h4, h5⟩ := atomEncode_ok hrp data hh hd
  refine ⟨syms, h5, h3, ?_⟩
  have hall : ∀ v ∈ syms ++ SegwitBech32Utils.ComputeChecksum hrp syms, v < 32 := by
    intro v hv
    rcases List.mem_append.mp hv with hx | hx
    · exact h2 v hx
    · exact computeChecksum_lt hrp syms v hx
  have hlen6 : 6 ≤ (syms ++ SegwitBech32Utils.ComputeChecksum hrp syms).length := by
    rw [List.length_append, computeChecksum_length]
    omega
  have hdec := atomDecodeBech32_encoded hrp
    (syms ++ SegwitBech32Utils.ComputeChecksum hrp syms) hh hall hlen6
  have hver : SegwitBech32Utils.VerifyChecksum hrp
      (syms ++ SegwitBech32Utils.ComputeChecksum hrp syms) = true := by
    refine segwit_verify_compute hrp syms ?_
    intro v hv
    exact lt_trans (h2 v hv) (by norm_num)
  rw [if_pos hver] at hdec
  have htake : (syms ++ SegwitBech32Utils.ComputeChecksum hrp syms).take
      ((syms ++ SegwitBech32Utils.ComputeChecksum hrp syms).length - 6) = syms := by
    rw [List.length_append, computeChecksum_length]
    have he : syms.length + 6 - 6 = syms.length := by omega
    rw [he]
    exact take_len_append syms _
  rw [htake] at hdec
  rw [atomDecode_eq_ok hrp _ hrp syms hdec]
  rw [if_neg (by simp)]
  rw [h4]

/-! ### Case-handling lemmas -/

theorem char_toNat_ofNat_valid {n : Nat} (h : n < 55296) : (Char.ofNat n).toNat = n := by
  rw [Char.ofNat, dif_pos (Or.inl h)]
  rfl

theorem asciiLowerChar_toNat_of_upper {c : Char} (h1 : 65 ≤ c.toNat) (h2 : c.toNat ≤ 90) :
    (asciiLowerChar c).toNat = c.toNat + 32 := by
  unfold asciiLowerChar
  rw [if_pos ⟨h1, h2⟩]
  exact char_toNat_ofNat_valid (by omega)

theorem asciiUpperChar_toNat_of_lower {c : Char} (h1 : 97 ≤ c.toNat) (h2 : c.toNat ≤ 122) :
    (asciiUpperChar c).toNat = c.toNat - 32 := by
  unfold asciiUpperChar
  rw [if_pos ⟨h1, h2⟩]
  exact char_toNat_ofNat_valid (by omega)

theorem asciiLowerChar_idem (c : Char) : asciiLowerChar (asciiLowerChar c) = asciiLowerChar c := by
  by_cases h : 65 ≤ c.toNat ∧ c.toNat ≤ 90
  · have ht : (asciiLowerChar c).toNat = c.toNat + 32 := asciiLowerChar_toNat_of_upper h.1 h.2
    set d := asciiLowerChar c with hd
    unfold asciiLowerChar
    rw [if_neg (by omega)]
  · unfold asciiLowerChar
    rw [if_neg h, if_neg h]

theorem map_eq_self_mem {α : Type} (f : α → α) : ∀ l : List α, List.map f l = l →
    ∀ x ∈ l, f x = x := by
  intro l
  induction l with
  | nil => intro _ x hx; exact absurd hx (List.not_mem_nil x)
  | cons a l ih =>
    intro h x hx
    rw [List.map_cons] at h
    injection h with h1 h2
    rcases List.mem_cons.mp hx with rfl | hx2
    · exact h1
    · exact ih h2 x hx2

theorem pyLower_take_lower (s : List Char) (n : Nat) :
    pyLower ((pyLower s).take n) = (pyLower s).take n := by
  unfold pyLower
  rw [← List.map_take, List.map_map]
  refine List.map_congr_left ?_
  intro a _
  exact asciiLowerChar_idem a

theorem decodeBech32_ok_hrp_lower (bechStr : List Char) (sep : Char) (ck : Nat)
    (verify : List Char → List Nat → Bool) (hrpgot : List Char) (d : List Nat)
    (h : Bech32DecoderBase.DecodeBech32 bechStr sep ck verify = .ok (hrpgot, d)) :
    pyLower hrpgot = hrpgot := by
  unfold Bech32DecoderBase.DecodeBech32 at h
  by_cases h1 : ((∃ c ∈ bechStr, c.toNat < 33 ∨ 126 < c.toNat) ∨
      (pyLower bechStr ≠ bechStr ∧ pyUpper bechStr ≠ bechStr))
  · rw [if_pos h1] at h
    exact absurd h (by simp)
  · rw [if_neg h1] at h
    cases hf : rfindIdx (pyLower bechStr) sep with
    | none =>
      simp only [hf] at h
      exact absurd h (by simp)
    | some sepPos =>
      simp only [hf] at h
      by_cases h2 : (pyLower bechStr).take sepPos = [] ∨
          ((pyLower bechStr).drop (sepPos + 1)).length < ck
      · rw [if_pos h2] at h
        exact absurd h (by simp)
      · rw [if_neg h2] at h
        by_cases h3 : ¬ (∀ c ∈ (pyLower bechStr).drop (sepPos + 1), c ∈ Bech32BaseConst.CHARSET)
        · rw [if_pos h3] at h
          exact absurd h (by simp)
        · rw [if_neg h3] at h
          by_cases h4 : verify ((pyLower bechStr).take sepPos)
              (((pyLower bechStr).drop (sepPos + 1)).map
                (fun c => List.indexOf c Bech32BaseConst.CHARSET)) = true
          · rw [if_pos h4] at h
            injection h with h5
            injection h5 with ha _
            rw [← ha]
            exact pyLower_take_lower bechStr sepPos
          · rw [if_neg h4] at h
            exact absurd h (by simp)

/-! ### Claim theorems -/

/-- C1: For every valid lower-case ASCII HRP and every byte sequence whose length is
within the variant's bounds (2 to 40 bytes), decoding the result of encoding returns
the original bytes: `Decode(hrp, Encode(hrp, bytes)) = bytes`, with no error raised. -/
theorem claim_C1_roundtrip (hrp : List Char) (data : List Nat) (hh : ValidHrp hrp)
    (hbytes : ∀ b ∈ data, b < 256) (hmin : 2 ≤ data.length) (hmax : data.length ≤ 40) :
    ∃ s, AtomBech32Encoder.Encode hrp data = .ok s ∧
      AtomBech32Decoder.Decode hrp s = .ok data := by
  obtain ⟨syms, h5, h3, hdecode⟩ := atom_roundtrip hrp data hh hbytes
  refine ⟨_, h5, ?_⟩
  rw [hdecode, if_neg (by
    simp only [AtomBech32Const.DATA_MIN_LEN, AtomBech32Const.DATA_MAX_LEN]
    omega)]

/-- Witness for C1 at the concrete input `hrp = "ab"`, `bytes = [0, 0]`. -/
theorem claim_C1_roundtrip_witness :
    ∃ s, AtomBech32Encoder.Encode ['a', 'b'] [0, 0] = .ok s ∧
      AtomBech32Decoder.Decode ['a', 'b'] s = .ok [0, 0] :=
  claim_C1_roundtrip ['a', 'b'] [0, 0] (by decide) (by decide) (by decide) (by decide)

/-- C2 counterexample: the claim says encoding a 1-byte payload raises an error, but
`Encode` performs no length-bounds check: encoding the single byte `0x00` under HRP
`"cosmos"` succeeds and returns a string. -/
theorem claim_C2_counterexample :
    AtomBech32Encoder.Encode ['c', 'o', 's', 'm', 'o', 's'] [0]
      = .ok ("cosmos1qqxuevtt".toList) := rfl

/-- C2 (amended): only `Decode` enforces the variant's payload-length bounds.  For a
valid HRP, payloads of 1 and 41 bytes encode successfully (no error from `Encode`) and
the resulting strings then fail `Decode`'s bounds check with a FormatError, while
payloads of exactly 2 and exactly 40 bytes encode successfully and decode back to the
original bytes. -/
theorem claim_C2_amended (hrp : List Char) (data : List Nat) (hh : ValidHrp hrp)
    (hbytes : ∀ b ∈ data, b < 256) :
    ((data.length = 1 ∨ data.length = 41) →
      ∃ s, AtomBech32Encoder.Encode hrp data = .ok s ∧
        AtomBech32Decoder.Decode hrp s
          = .error (.formatError "Invalid format (length not valid)")) ∧
    ((data.length = 2 ∨ data.length = 40) →
      ∃ s, AtomBech32Encoder.Encode hrp data = .ok s ∧
        AtomBech32Decoder.Decode hrp s = .ok data) := by
  obtain ⟨syms, h5, h3, hdecode⟩ := atom_roundtrip hrp data hh hbytes
  constructor
  · intro hl
    refine ⟨_, h5, ?_⟩
    rw [hdecode, if_pos (by
      simp only [AtomBech32Const.DATA_MIN_LEN, AtomBech32Const.DATA_MAX_LEN]
      omega)]
  · intro hl
    refine ⟨_, h5, ?_⟩
    rw [hdecode, if_neg (by
      simp only [AtomBech32Const.DATA_MIN_LEN, AtomBech32Const.DATA_MAX_LEN]
      omega)]

/-- Witness for the amended C2 at `hrp = "cosmos"` with payloads `[0]` (1 byte,
rejected by Decode) and `[0, 0]` (2 bytes, accepted). -/
theorem claim_C2_amended_witness :
    (∃ s, AtomBech32Encoder.Encode ['c', 'o', 's', 'm', 'o', 's'] [0] = .ok s ∧
      AtomBech32Decoder.Decode ['c', 'o', 's', 'm', 'o', 's'] s
        = .error (.formatError "Invalid format (length not valid)")) ∧
    (∃ s, AtomBech32Encoder.Encode ['c', 'o', 's', 'm', 'o', 's'] [0, 0] = .ok s ∧
      AtomBech32Decoder.Decode ['c', 'o', 's', 'm', 'o', 's'] s = .ok [0, 0]) :=
  ⟨(claim_C2_amended ['c', 'o', 's', 'm', 'o', 's'] [0] (by decide) (by decide)).1
      (Or.inl rfl),
    (claim_C2_amended ['c', 'o', 's', 'm', 'o', 's'] [0, 0] (by decide) (by decide)).2
      (Or.inl rfl)⟩

/-- C3: For every string whose checksum verifies under its embedded (decoded) HRP —
i.e. the base decode step succeeds, returning the embedded HRP — calling `Decode` with
an expected HRP different from the embedded one raises FormatError carrying the
expected and actual HRP, never ChecksumError. -/
theorem claim_C3_wrong_hrp (hrp addr hrpgot : List Char) (d : List Nat)
    (hok : Bech32DecoderBase.DecodeBech32 addr AtomBech32Const.SEPARATOR
      AtomBech32Const.CHECKSUM_LEN AtomBech32Decoder.VerifyChecksum = .ok (hrpgot, d))
    (hne : hrpgot ≠ hrp) :
    AtomBech32Decoder.Decode hrp addr
      = .error (.formatError ("Invalid format (HRP not valid, expected " ++ String.mk hrp ++
        ", got " ++ String.mk hrpgot ++ ")")) := by
  rw [atomDecode_eq_ok hrp addr hrpgot d hok, if_pos hne]

/-- Witness for C3: the validly-checksummed string `"osmo1qqqqm5tkx0"` (embedded HRP
`"osmo"`) decoded with expected HRP `"cosmos"`. -/
theorem claim_C3_wrong_hrp_witness :
    AtomBech32Decoder.Decode ("cosmos".toList) ("osmo1qqqqm5tkx0".toList)
      = .error (.formatError ("Invalid format (HRP not valid, expected " ++
        String.mk ("cosmos".toList) ++ ", got " ++ String.mk ("osmo".toList) ++ ")")) :=
  claim_C3_wrong_hrp ("cosmos".toList) ("osmo1qqqqm5tkx0".toList) ("osmo".toList)
    [0, 0, 0, 0] rfl (by decide)

/-- C4 counterexample: `"AB"` and the embedded HRP `"ab"` are equal up to case, yet
decoding the valid string `"ab1qqqqheej66"` with `expectedHrp = "AB"` raises
FormatError: the comparison at `atom_bech32.py` line 105 is exact, not
case-insensitive. -/
theorem claim_C4_counterexample :
    pyLower ['A', 'B'] = ['a', 'b'] ∧
    AtomBech32Decoder.Decode ['A', 'B'] ("ab1qqqqheej66".toList)
      = .error (.formatError ("Invalid format (HRP not valid, expected " ++
        String.mk ['A', 'B'] ++ ", got " ++ String.mk ['a', 'b'] ++ ")")) := ⟨rfl, rfl⟩

/-- C4 (amended): the decoded HRP is returned lower-cased by the base decode step, and
the comparison against expectedHrp is exact string equality (no normalization of
expectedHrp): Decode proceeds past the HRP check iff expectedHrp equals the lower-cased
decoded HRP, and raises FormatError (with both HRPs) whenever they differ — in
particular an upper-case expectedHrp never matches. -/
theorem claim_C4_amended (hrp addr hrpgot : List Char) (d : List Nat)
    (hok : Bech32DecoderBase.DecodeBech32 addr AtomBech32Const.SEPARATOR
      AtomBech32Const.CHECKSUM_LEN AtomBech32Decoder.VerifyChecksum = .ok (hrpgot, d)) :
    pyLower hrpgot = hrpgot ∧
    (hrpgot = hrp →
      AtomBech32Decoder.Decode hrp addr =
        (match Bech32BaseUtils.ConvertFromBase32 d with
         | .error e => .error e
         | .ok convData =>
           if convData.length < AtomBech32Const.DATA_MIN_LEN ∨
               AtomBech32Const.DATA_MAX_LEN < convData.length then
             .error (.formatError "Invalid format (length not valid)")
           else .ok convData)) ∧
    (hrpgot ≠ hrp →
      AtomBech32Decoder.Decode hrp addr
        = .error (.formatError ("Invalid format (HRP not valid, expected " ++
            String.mk hrp ++ ", got " ++ String.mk hrpgot ++ ")"))) := by
  refine ⟨decodeBech32_ok_hrp_lower addr _ _ _ hrpgot d hok, ?_, ?_⟩
  · intro heq
    rw [atomDecode_eq_ok hrp addr hrpgot d hok, if_neg (by rw [heq]; simp)]
  · intro hne
    rw [atomDecode_eq_ok hrp addr hrpgot d hok, if_pos hne]

/-- Witness for the amended C4 on the concrete valid string `"ab1qqqqheej66"`. -/
theorem claim_C4_amended_witness :
    pyLower ['a', 'b'] = ['a', 'b'] ∧
    (['a', 'b'] = ['a', 'b'] →
      AtomBech32Decoder.Decode ['a', 'b'] ("ab1qqqqheej66".toList) =
        (match Bech32BaseUtils.ConvertFromBase32 [0, 0, 0, 0] with
         | .error e => .error e
         | .ok convData =>
           if convData.length < AtomBech32Const.DATA_MIN_LEN ∨
               AtomBech32Const.DATA_MAX_LEN < convData.length then
             .error (.formatError "Invalid format (length not valid)")
           else .ok convData)) ∧
    (['a', 'b'] ≠ ['a', 'b'] →
      AtomBech32Decoder.Decode ['a', 'b'] ("ab1qqqqheej66".toList)
        = .error (.formatError ("Invalid format (HRP not valid, expected " ++
            String.mk ['a', 'b'] ++ ", got " ++ String.mk ['a', 'b'] ++ ")"))) :=
  claim_C4_amended ['a', 'b'] ("ab1qqqqheej66".toList) ['a', 'b'] [0, 0, 0, 0] rfl

/-- C5: For every valid encoded symbol sequence (checksum included) that verifies,
changing any single symbol — at any position `s1 ++ d :: s2` — to a different 5-bit
symbol (i.e. a different charset character) makes checksum verification fail, and
Decode of the correspondingly corrupted string rejects it with ChecksumError. -/
theorem claim_C5_single_char (hrp : List Char) (s1 s2 : List Nat) (d e : Nat)
    (hh : ValidHrp hrp) (hall : ∀ v ∈ s1 ++ d :: s2, v < 32) (he : e < 32) (hne : e ≠ d)
    (hlen : 6 ≤ (s1 ++ d :: s2).length)
    (hver : AtomBech32Decoder.VerifyChecksum hrp (s1 ++ d :: s2) = true) :
    AtomBech32Decoder.VerifyChecksum hrp (s1 ++ e :: s2) = false ∧
    AtomBech32Decoder.Decode hrp (hrp ++ '1' :: (s1 ++ e :: s2).map charsetChar)
      = .error (.checksumError "Invalid checksum") := by
  have hd32 : d < 32 := hall d (by simp)
  have hver2 : SegwitBech32Utils.VerifyChecksum hrp (s1 ++ d :: s2) = true := hver
  have hfail : SegwitBech32Utils.VerifyChecksum hrp (s1 ++ e :: s2) = false :=
    segwit_verify_single_change hrp s1 s2 d e (lt_trans hd32 (by norm_num))
      (lt_trans he (by norm_num)) hne hver2
  refine ⟨hfail, ?_⟩
  have hall2 : ∀ v ∈ s1 ++ e :: s2, v < 32 := by
    intro v hv
    rcases List.mem_append.mp hv with h1 | h1
    · exact hall v (List.mem_append.mpr (Or.inl h1))
    · rcases List.mem_cons.mp h1 with rfl | h2
      · exact he
      · exact hall v (List.mem_append.mpr (Or.inr (List.mem_cons_of_mem _ h2)))
  have hlen2 : 6 ≤ (s1 ++ e :: s2).length := by
    simp only [List.length_append, List.length_cons] at hlen ⊢
    omega
  have hdec := atomDecodeBech32_encoded hrp (s1 ++ e :: s2) hh hall2 hlen2
  rw [if_neg (by rw [hfail]; simp)] at hdec
  exact atomDecode_eq_error hrp _ _ hdec

/-- Witness for C5: the valid string for HRP `"ab"` and payload `[0, 0]` has symbols
`[0, 0, 0, 0, 23, 25, 25, 18, 26, 26]`; flipping the first symbol `0` to `1` breaks
verification and decoding. -/
theorem claim_C5_single_char_witness :
    AtomBech32Decoder.VerifyChecksum ['a', 'b']
        ([] ++ 1 :: [0, 0, 0, 23, 25, 25, 18, 26, 26]) = false ∧
    AtomBech32Decoder.Decode ['a', 'b']
        (['a', 'b'] ++ '1' :: ([] ++ 1 :: [0, 0, 0, 23, 25, 25, 18, 26, 26]).map charsetChar)
      = .error (.checksumError "Invalid checksum") :=
  claim_C5_single_char ['a', 'b'] [] [0, 0, 0, 23, 25, 25, 18, 26, 26] 0 1
    (by decide) (by decide) (by decide) (by decide) (by decide) rfl

/-- C6: Encoding HRP `"cosmos"` over the payload of 20 zero bytes returns (on every
invocation of the pure function) the fixed string
`"cosmos1qqqqqqqqqqqqqqqqqqqqqqqqqqqqqqqqnrql8a"`, and decoding that string with
expected HRP `"cosmos"` returns exactly the original 20 zero bytes. -/
theorem claim_C6_vector :
    AtomBech32Encoder.Encode ("cosmos".toList) (List.replicate 20 0)
      = .ok ("cosmos1qqqqqqqqqqqqqqqqqqqqqqqqqqqqqqqqnrql8a".toList) ∧
    AtomBech32Decoder.Decode ("cosmos".toList)
        ("cosmos1qqqqqqqqqqqqqqqqqqqqqqqqqqqqqqqqnrql8a".toList)
      = .ok (List.replicate 20 0) := ⟨rfl, rfl⟩

/-- C7: Every input string to Decode containing both an upper-case and a lower-case
ASCII letter is rejected with FormatError, regardless of anything else. -/
theorem claim_C7_mixed_case (hrp addr : List Char)
    (hU : ∃ c ∈ addr, 65 ≤ c.toNat ∧ c.toNat ≤ 90)
    (hL : ∃ c ∈ addr, 97 ≤ c.toNat ∧ c.toNat ≤ 122) :
    AtomBech32Decoder.Decode hrp addr
      = .error (.formatError "Invalid format (string not valid)") := by
  obtain ⟨cu, hcu, hcu1, hcu2⟩ := hU
  obtain ⟨cl, hcl, hcl1, hcl2⟩ := hL
  have hcond : ((∃ c ∈ addr, c.toNat < 33 ∨ 126 < c.toNat) ∨
      (pyLower addr ≠ addr ∧ pyUpper addr ≠ addr)) := by
    right
    constructor
    · intro hc
      have hfix := map_eq_self_mem asciiLowerChar addr hc cu hcu
      have ht := asciiLowerChar_toNat_of_upper hcu1 hcu2
      have h2 := congrArg Char.toNat hfix
      omega
    · intro hc
      have hfix := map_eq_self_mem asciiUpperChar addr hc cl hcl
      have ht := asciiUpperChar_toNat_of_lower hcl1 hcl2
      have h2 := congrArg Char.toNat hfix
      omega
  refine atomDecode_eq_error hrp addr _ ?_
  unfold Bech32DecoderBase.DecodeBech32
  rw [if_pos hcond]

/-- Witness for C7: `"Ab"` mixes cases, so decoding fails with FormatError. -/
theorem claim_C7_mixed_case_witness :
    AtomBech32Decoder.Decode ['a'] ['A', 'b']
      = .error (.formatError "Invalid format (string not valid)") :=
  claim_C7_mixed_case ['a'] ['A', 'b'] (by decide) (by decide)

/-- C8: the decoding-direction 5-to-8 regrouping is performed without padding: when the
trailing leftover bits (beyond the last full byte) of a symbol sequence are not all
zero, the conversion fails and Decode of the corresponding validly-checksummed string
raises FormatError; when the leftover bits are all zero and fewer than 5, the
conversion succeeds. -/
theorem claim_C8_no_padding (hrp : List Char) (syms : List Nat) (hh : ValidHrp hrp)
    (hs : ∀ v ∈ syms, v < 32) :
    (toNum 5 syms % 2 ^ (5 * syms.length % 8) ≠ 0 →
      Bech32BaseUtils.ConvertFromBase32 syms
          = .error (.formatError "Invalid format (conversion from base32 failed)") ∧
      AtomBech32Decoder.Decode hrp
          (hrp ++ '1' ::
            (syms ++ SegwitBech32Utils.ComputeChecksum hrp syms).map charsetChar)
        = .error (.formatError "Invalid format (conversion from base32 failed)")) ∧
    (toNum 5 syms % 2 ^ (5 * syms.length % 8) = 0 → 5 * syms.length % 8 < 5 →
      ∃ bs, Bech32BaseUtils.ConvertFromBase32 syms = .ok bs) := by
  have hs5 : ∀ v ∈ syms, v < 2 ^ 5 := hs
  obtain ⟨hsucc, hfail⟩ := convertBits_nopad_spec 5 8 (by norm_num) (by norm_num) syms hs5
  constructor
  · intro hnz
    have hnone : Bech32BaseUtils.ConvertBits syms 5 8 false = none := hfail (Or.inr hnz)
    have hcvt : Bech32BaseUtils.ConvertFromBase32 syms
        = .error (.formatError "Invalid format (conversion from base32 failed)") := by
      unfold Bech32BaseUtils.ConvertFromBase32
      rw [hnone]
    refine ⟨hcvt, ?_⟩
    have hall : ∀ v ∈ syms ++ SegwitBech32Utils.ComputeChecksum hrp syms, v < 32 := by
      intro v hv
      rcases List.mem_append.mp hv with h1 | h1
      · exact hs v h1
      · exact computeChecksum_lt hrp syms v h1
    have hlen6 : 6 ≤ (syms ++ SegwitBech32Utils.ComputeChecksum hrp syms).length := by
      rw [List.length_append, computeChecksum_length]
      omega
    have hdec := atomDecodeBech32_encoded hrp
      (syms ++ SegwitBech32Utils.ComputeChecksum hrp syms) hh hall hlen6
    have hver : SegwitBech32Utils.VerifyChecksum hrp
        (syms ++ SegwitBech32Utils.ComputeChecksum hrp syms) = true :=
      segwit_verify_compute hrp syms (fun v hv => lt_trans (hs v hv) (by norm_num))
    rw [if_pos hver] at hdec
    have htake : (syms ++ SegwitBech32Utils.ComputeChecksum hrp syms).take
        ((syms ++ SegwitBech32Utils.ComputeChecksum hrp syms).length - 6) = syms := by
      rw [List.length_append, computeChecksum_length]
      have he : syms.length + 6 - 6 = syms.length := by omega
      rw [he]
      exact take_len_append syms _
    rw [htake] at hdec
    rw [atomDecode_eq_ok hrp _ hrp syms hdec, if_neg (by simp), hcvt]
  · intro h0 h5b
    obtain ⟨zs, hz, _⟩ := hsucc ⟨by omega, h0⟩
    refine ⟨zs, ?_⟩
    unfold Bech32BaseUtils.ConvertFromBase32
    rw [hz]

/-- Witness for C8: the single symbol `[1]` leaves 5 nonzero leftover bits, so the
5-to-8 conversion and the decode of the corresponding checksummed string both fail;
the 8-symbol all-zero sequence has no leftover bits and converts successfully. -/
theorem claim_C8_no_padding_witness :
    (Bech32BaseUtils.ConvertFromBase32 [1]
        = .error (.formatError "Invalid format (conversion from base32 failed)") ∧
      AtomBech32Decoder.Decode ['a', 'b']
          (['a', 'b'] ++ '1' ::
            ([1] ++ SegwitBech32Utils.ComputeChecksum ['a', 'b'] [1]).map charsetChar)
        = .error (.formatError "Invalid format (conversion from base32 failed)")) ∧
    (∃ bs, Bech32BaseUtils.ConvertFromBase32 [0, 0, 0, 0, 0, 0, 0, 0] = .ok bs) :=
  ⟨(claim_C8_no_padding ['a', 'b'] [1] (by decide) (by decide)).1 (by decide),
    (claim_C8_no_padding ['a', 'b'] [0, 0, 0, 0, 0, 0, 0, 0] (by decide) (by decide)).2
      (by decide) (by decide)⟩

/-- C9: the checksum computation and encoding are pure functions of their arguments:
two invocations of `_ComputeChecksum` (and of `Encode`) on the same HRP and data are
identical; there is no randomness or external state in the model. -/
theorem claim_C9_deterministic (hrp : List Char) (data : List Nat) :
    SegwitBech32Utils.ComputeChecksum hrp data = SegwitBech32Utils.ComputeChecksum hrp data ∧
    AtomBech32Encoder.ComputeChecksum hrp data = AtomBech32Encoder.ComputeChecksum hrp data ∧
    AtomBech32Encoder.Encode hrp data = AtomBech32Encoder.Encode hrp data :=
  ⟨rfl, rfl, rfl⟩

/-- C10: the Atom variant's checksum computation and verification delegate to (and are
extensionally equal to) the Segwit ones, and the Atom separator and checksum length
equal the Segwit constants. -/
theorem claim_C10_same_as_segwit (hrp : List Char) (data : List Nat) :
    AtomBech32Encoder.ComputeChecksum hrp data = SegwitBech32Utils.ComputeChecksum hrp data ∧
    AtomBech32Decoder.VerifyChecksum hrp data = SegwitBech32Utils.VerifyChecksum hrp data ∧
    AtomBech32Const.SEPARATOR = SegwitBech32Const.SEPARATOR ∧
    AtomBech32Const.CHECKSUM_LEN = SegwitBech32Const.CHECKSUM_LEN :=
  ⟨rfl, rfl, rfl, rfl⟩
